import Mathlib

/-!
Verification development for the daily fuel-price reporting form
(image metadata validation, hybrid image storage, compression geometry,
and the persisted application-state store).

The TypeScript sources are shallowly embedded below.  Browser and library
primitives (EXIF extraction, `FileReader` base64 encoding, `fetch` data-URL
decoding, `date-fns` calendar comparison, DOM storage) are modelled by
explicit Lean counterparts; asynchronous fallible steps become explicit
outcome values, and the two storage tiers become explicit maps.
-/

set_option maxHeartbeats 1000000

namespace PostoNatureza

/-! ## JavaScript semantics helpers -/

/-- JS `a || b` on possibly-absent strings: the empty string is falsy. -/
def jsOrS (a b : Option String) : Option String :=
  match a with
  | some s => if s = "" then b else some s
  | none => b

/-- JS truthiness of a `string | undefined` value: `some s` with `s ≠ ""`. -/
def truthyS (a : Option String) : Option String :=
  match a with
  | some s => if s = "" then none else some s
  | none => none

/-- JS `!x` test for a `string | undefined` value: absent or empty. -/
def falsyS : Option String → Bool
  | none => true
  | some s => s == ""

/-- Option fallback corresponding to JS property spreading: the left
(overriding) value when present, otherwise the right. -/
def orO {α : Type} : Option α → Option α → Option α
  | some a, _ => some a
  | none, b => b

/-- JS `String.prototype.startsWith`, modelled on the character lists. -/
def jsStartsWith (s pre : String) : Bool :=
  pre.toList.isPrefixOf s.toList

@[simp] theorem orO_some {α : Type} (a : α) (b : Option α) : orO (some a) b = some a := rfl

@[simp] theorem orO_none {α : Type} (b : Option α) : orO none b = b := rfl

/-! ## Image metadata and date validation (`imageMetadata.ts`)

`extractImageMetadata` wraps the EXIF library; it never throws and yields
`none` when the file carries no usable attributes.  Its observable result —
or a failure thrown inside the validator's `try` block — is modelled by
`ExtractOutcome`.  Clock readings (`isToday`, `format`) are modelled against
an explicit `today` timestamp argument. -/

/-- A capture timestamp in local time, as consumed by `isToday` and
`format(photoDate, 'dd/MM/yyyy')`. -/
structure Timestamp where
  year : Nat
  month : Nat
  day : Nat
  hour : Nat
  minute : Nat
deriving DecidableEq, Repr

/-- The `ImageMetadata` interface of `imageMetadata.ts`. -/
structure ImageMetadata where
  dateTime : Option Timestamp
  make : Option String
  model : Option String
  software : Option String
  gpsLatitude : Option ℚ
  gpsLongitude : Option ℚ
deriving DecidableEq, Repr

/-- The `status` field of a `ValidationResult`. -/
inductive VStatus where
  | validated
  | invalid
  | warning
deriving DecidableEq, Repr

/-- The `ValidationResult` interface of `imageMetadata.ts`; optional fields
default to absent, as in the object literals of the source. -/
structure ValidationResult where
  isValid : Bool
  reason : Option String := none
  metadata : Option ImageMetadata := none
  suggestion : Option String := none
  status : Option VStatus := none
deriving DecidableEq, Repr

/-- Observable outcome of the metadata-extraction step inside
`validateImageDate`'s `try` block: either some thrown failure (`err`), or
the `ImageMetadata | null` value returned by `extractImageMetadata`. -/
inductive ExtractOutcome where
  | err
  | ok (m : Option ImageMetadata)
deriving DecidableEq, Repr

/-- Calendar-day comparison used by `date-fns`' `isToday`: same local year,
month and day; the time of day is ignored. -/
def sameCalendarDay (a b : Timestamp) : Bool :=
  a.year == b.year && a.month == b.month && a.day == b.day

/-- Two-digit zero padding, as in `date-fns` format tokens `dd` and `MM`. -/
def pad2 (n : Nat) : String :=
  if n < 10 then "0" ++ toString n else toString n

/-- Four-digit zero padding, as in the `date-fns` format token `yyyy`. -/
def pad4 (n : Nat) : String :=
  if n < 10 then "000" ++ toString n
  else if n < 100 then "00" ++ toString n
  else if n < 1000 then "0" ++ toString n
  else toString n

/-- The string `format(photoDate, 'dd/MM/yyyy')`. -/
def formatDDMMYYYY (t : Timestamp) : String :=
  pad2 t.day ++ "/" ++ pad2 t.month ++ "/" ++ pad4 t.year

/-- The `validateImageDate` function of `imageMetadata.ts`.  The file being
validated enters only through the extraction outcome; `today` is the current
clock reading consulted by `isToday`.  The surrounding `try`/`catch` makes
the source total; here totality is literal, the `catch` branch being the
image of the `ExtractOutcome.err` case. -/
def validateImageDate (stationId : String) (today : Timestamp)
    (outcome : ExtractOutcome) : ValidationResult :=
  if stationId = "reference" then
    { isValid := true }
  else if (jsStartsWith stationId "competitor_") = false then
    { isValid := true }
  else
    match outcome with
    | .err =>
        { isValid := false
          reason := some "Erro ao processar a imagem"
          suggestion := some "Tente novamente ou use a câmera"
          status := some .invalid }
    | .ok none =>
        { isValid := false
          reason := some "Não foi possível verificar os metadados da imagem"
          suggestion := some "Use a câmera para tirar uma foto atual"
          status := some .invalid }
    | .ok (some metadata) =>
        match metadata.dateTime with
        | none =>
            { isValid := false
              reason := some "Não foi possível verificar a data da imagem"
              suggestion := some "Use a câmera para tirar uma foto atual"
              status := some .invalid }
        | some photoDate =>
            if sameCalendarDay photoDate today then
              { isValid := true
                metadata := some metadata
                status := some .validated }
            else
              { isValid := false
                reason := some ("Esta imagem foi tirada em " ++ formatDDMMYYYY photoDate
                  ++ ", não no dia atual")
                suggestion := some "Use a câmera para tirar uma foto atual"
                metadata := some metadata
                status := some .invalid }

/-! Basic sanity checks of the embedding. -/

example :
    (validateImageDate "competitor_1" ⟨2025, 10, 11, 12, 0⟩
      (.ok (some ⟨some ⟨2025, 10, 10, 23, 59⟩, none, none, none, none, none⟩))).reason =
      some "Esta imagem foi tirada em 10/10/2025, não no dia atual" := by decide

example :
    (validateImageDate "competitor_1" ⟨2025, 10, 11, 12, 0⟩
      (.ok (some ⟨some ⟨2025, 10, 11, 0, 1⟩, none, none, none, none, none⟩))).status =
      some VStatus.validated := by decide

example : validateImageDate "reference" ⟨2025, 10, 11, 12, 0⟩ .err =
    { isValid := true } := by decide

/-- A competitor station id is never the literal `"reference"`. -/
theorem competitor_ne_reference (sid : String)
    (h : jsStartsWith sid "competitor_" = true) : sid ≠ "reference" := by
  intro he
  subst he
  simp [jsStartsWith] at h

/-- C1: for every competitor station id (one starting with `competitor_`) and
every image whose extracted capture timestamp exists but does not fall on the
current calendar day, `validateImageDate` returns `isValid = false`,
status `invalid`, a reason naming the capture date in `dd/MM/yyyy` form, and
the extracted metadata attached. -/
theorem validateImageDate_competitor_wrong_day (sid : String) (today dt : Timestamp)
    (md : ImageMetadata)
    (hcomp : jsStartsWith sid "competitor_" = true)
    (hdt : md.dateTime = some dt)
    (hday : sameCalendarDay dt today = false) :
    validateImageDate sid today (.ok (some md)) =
      { isValid := false
        reason := some ("Esta imagem foi tirada em " ++ formatDDMMYYYY dt
          ++ ", não no dia atual")
        suggestion := some "Use a câmera para tirar uma foto atual"
        metadata := some md
        status := some .invalid } := by
  have href : sid ≠ "reference" := competitor_ne_reference sid hcomp
  simp [validateImageDate, href, hcomp, hdt, hday]

/-- Witness for C1 at a concrete input: station `competitor_2`, photo taken
the day before the current date. -/
theorem validateImageDate_competitor_wrong_day_witness :
    validateImageDate "competitor_2" ⟨2025, 10, 11, 12, 0⟩
      (.ok (some ⟨some ⟨2025, 10, 10, 23, 59⟩, none, none, none, none, none⟩)) =
      { isValid := false
        reason := some ("Esta imagem foi tirada em "
          ++ formatDDMMYYYY ⟨2025, 10, 10, 23, 59⟩ ++ ", não no dia atual")
        suggestion := some "Use a câmera para tirar uma foto atual"
        metadata := some ⟨some ⟨2025, 10, 10, 23, 59⟩, none, none, none, none, none⟩
        status := some .invalid } :=
  validateImageDate_competitor_wrong_day "competitor_2" ⟨2025, 10, 11, 12, 0⟩
    ⟨2025, 10, 10, 23, 59⟩ ⟨some ⟨2025, 10, 10, 23, 59⟩, none, none, none, none, none⟩
    (by decide) rfl (by decide)

/-- C2 counterexample: the claim asserts that for the reference station the
result carries `status = validated`; in the source the reference branch
returns the bare object `{ isValid: true }`, whose `status` is absent. -/
theorem validateImageDate_reference_status_absent :
    (validateImageDate "reference" ⟨2025, 10, 11, 12, 0⟩
        (.ok none)).status ≠ some VStatus.validated := by
  decide

/-- C2 amended: for the reference station id, `validateImageDate` returns
`isValid = true` with no status, no reason, no suggestion and no metadata
attached (no metadata check is performed; the extraction outcome is
irrelevant). -/
theorem validateImageDate_reference (today : Timestamp) (outcome : ExtractOutcome) :
    validateImageDate "reference" today outcome =
      { isValid := true, reason := none, metadata := none,
        suggestion := none, status := none } := by
  simp [validateImageDate]

/-- C3: the validator is total on every extraction outcome — the thrown-error
outcome is mapped to `invalid` with the generic processing-error reason, an
absent extraction result to the cannot-verify-metadata reason, and a present
result with no capture timestamp to the cannot-verify-date reason, each with
the use-the-camera suggestion; no outcome escapes as an exception. -/
theorem validateImageDate_error_handling (sid : String) (today : Timestamp)
    (hcomp : jsStartsWith sid "competitor_" = true) :
    validateImageDate sid today .err =
      { isValid := false
        reason := some "Erro ao processar a imagem"
        suggestion := some "Tente novamente ou use a câmera"
        status := some .invalid } ∧
    validateImageDate sid today (.ok none) =
      { isValid := false
        reason := some "Não foi possível verificar os metadados da imagem"
        suggestion := some "Use a câmera para tirar uma foto atual"
        status := some .invalid } ∧
    (∀ md : ImageMetadata, md.dateTime = none →
      validateImageDate sid today (.ok (some md)) =
        { isValid := false
          reason := some "Não foi possível verificar a data da imagem"
          suggestion := some "Use a câmera para tirar uma foto atual"
          status := some .invalid }) := by
  have href : sid ≠ "reference" := competitor_ne_reference sid hcomp
  refine ⟨?_, ?_, ?_⟩
  · simp [validateImageDate, href, hcomp]
  · simp [validateImageDate, href, hcomp]
  · intro md hmd
    simp [validateImageDate, href, hcomp, hmd]

/-- Witness for C3 at the concrete station `competitor_1`. -/
theorem validateImageDate_error_handling_witness :
    validateImageDate "competitor_1" ⟨2025, 10, 11, 12, 0⟩ .err =
      { isValid := false
        reason := some "Erro ao processar a imagem"
        suggestion := some "Tente novamente ou use a câmera"
        status := some .invalid } :=
  (validateImageDate_error_handling "competitor_1" ⟨2025, 10, 11, 12, 0⟩ (by decide)).1

/-! ## Base64 codec

`blobToDataURL` delegates to `FileReader.readAsDataURL`, and `getImageBlob`
decodes through `fetch` on a data URL; both browser primitives speak standard
base64, implemented here.  A blob is its byte content, each byte below 256. -/

/-- The base64 alphabet, in index order. -/
def b64chars : List Char :=
  "ABCDEFGHIJKLMNOPQRSTUVWXYZabcdefghijklmnopqrstuvwxyz0123456789+/".toList

/-- Character for a 6-bit value. -/
def b64chr (i : Nat) : Char := b64chars.getD i 'A'

/-- Position of a character in a list (0 when absent). -/
def b64idx : List Char → Char → Nat
  | [], _ => 0
  | a :: rest, c => if a = c then 0 else b64idx rest c + 1

/-- Six-bit value of a base64 character. -/
def b64val (c : Char) : Nat := b64idx b64chars c

/-- Base64 encoding of a byte sequence, three bytes to four characters,
padded with `=`. -/
def encB64 : List Nat → List Char
  | [] => []
  | [a] => [b64chr (a / 4), b64chr (a % 4 * 16), '=', '=']
  | [a, b] => [b64chr (a / 4), b64chr (a % 4 * 16 + b / 16), b64chr (b % 16 * 4), '=']
  | a :: b :: c :: rest =>
      b64chr (a / 4) :: b64chr (a % 4 * 16 + b / 16) ::
        b64chr (b % 16 * 4 + c / 64) :: b64chr (c % 64) :: encB64 rest

/-- Base64 decoding, four characters to three bytes, honouring `=` padding. -/
def decB64 : List Char → List Nat
  | c1 :: c2 :: c3 :: c4 :: rest =>
      if c3 = '=' then [b64val c1 * 4 + b64val c2 / 16]
      else if c4 = '=' then
        [b64val c1 * 4 + b64val c2 / 16, b64val c2 % 16 * 16 + b64val c3 / 4]
      else
        (b64val c1 * 4 + b64val c2 / 16) :: (b64val c2 % 16 * 16 + b64val c3 / 4) ::
          (b64val c3 % 4 * 64 + b64val c4) :: decB64 rest
  | _ => []

theorem b64val_b64chr : ∀ i : Fin 64, b64val (b64chr i.val) = i.val := by decide

theorem b64chr_ne_pad : ∀ i : Fin 64, b64chr i.val ≠ '=' := by decide

/-- Value recovery for in-range 6-bit chunks. -/
theorem b64val_chr (i : Nat) (h : i < 64) : b64val (b64chr i) = i :=
  b64val_b64chr ⟨i, h⟩

/-- Alphabet characters are never the padding character. -/
theorem b64chr_ne (i : Nat) (h : i < 64) : b64chr i ≠ '=' :=
  b64chr_ne_pad ⟨i, h⟩

/-- Decoding inverts encoding on byte sequences. -/
theorem decB64_encB64 : ∀ bs : List Nat, (∀ x ∈ bs, x < 256) → decB64 (encB64 bs) = bs
  | [] => fun _ => rfl
  | [a] => fun h => by
      have ha : a < 256 := h a (by simp)
      have h1 : a / 4 < 64 := by omega
      have h2 : a % 4 * 16 < 64 := by omega
      show decB64 [b64chr (a / 4), b64chr (a % 4 * 16), '=', '='] = [a]
      rw [decB64, if_pos rfl, b64val_chr _ h1, b64val_chr _ h2]
      simp only [List.cons.injEq, and_true]
      omega
  | [a, b] => fun h => by
      have ha : a < 256 := h a (by simp)
      have hb : b < 256 := h b (by simp)
      have h1 : a / 4 < 64 := by omega
      have h2 : a % 4 * 16 + b / 16 < 64 := by omega
      have h3 : b % 16 * 4 < 64 := by omega
      show decB64 [b64chr (a / 4), b64chr (a % 4 * 16 + b / 16), b64chr (b % 16 * 4), '='] =
        [a, b]
      rw [decB64, if_neg (b64chr_ne _ h3), if_pos rfl,
        b64val_chr _ h1, b64val_chr _ h2, b64val_chr _ h3]
      simp only [List.cons.injEq, and_true]
      omega
  | a :: b :: c :: rest => fun h => by
      have ha : a < 256 := h a (by simp)
      have hb : b < 256 := h b (by simp)
      have hc : c < 256 := h c (by simp)
      have h1 : a / 4 < 64 := by omega
      have h2 : a % 4 * 16 + b / 16 < 64 := by omega
      have h3 : b % 16 * 4 + c / 64 < 64 := by omega
      have h4 : c % 64 < 64 := by omega
      have ih : decB64 (encB64 rest) = rest :=
        decB64_encB64 rest (fun x hx => h x (by simp [hx]))
      show decB64 (b64chr (a / 4) :: b64chr (a % 4 * 16 + b / 16) ::
        b64chr (b % 16 * 4 + c / 64) :: b64chr (c % 64) :: encB64 rest) = a :: b :: c :: rest
      rw [decB64, if_neg (b64chr_ne _ h3), if_neg (b64chr_ne _ h4),
        b64val_chr _ h1, b64val_chr _ h2, b64val_chr _ h3, b64val_chr _ h4, ih]
      simp only [List.cons.injEq, and_true]
      omega

/-- Encoding a non-empty byte sequence yields a non-empty character list. -/
theorem encB64_ne_nil (bs : List Nat) (h : bs ≠ []) : encB64 bs ≠ [] := by
  match bs with
  | [] => exact absurd rfl h
  | [a] => simp [encB64]
  | [a, b] => simp [encB64]
  | a :: b :: c :: rest => simp [encB64]

/-! ## Hybrid image store (`imagesDB.ts`) -/

/-- The `imageKey` function: `img:<period>:<stationId>`. -/
def imageKey (period stationId : String) : String :=
  "img:" ++ period ++ ":" ++ stationId

/-- A character admitted by the `[a-zA-Z+]` class of the data-URL prefix
pattern. -/
def mimeChar (c : Char) : Bool := c.isAlpha || c == '+'

/-- Model of `s.replace(/^data:image\/[a-zA-Z+]+;base64,/, "")` on character
lists: strip the anchored data-URL header when it matches, otherwise return
the input unchanged. -/
def stripDataUrl (cs : List Char) : List Char :=
  if "data:image/".toList.isPrefixOf cs then
    if (cs.drop 11).takeWhile mimeChar ≠ [] ∧
        ";base64,".toList.isPrefixOf ((cs.drop 11).dropWhile mimeChar) then
      ((cs.drop 11).dropWhile mimeChar).drop 8
    else cs
  else cs

/-- The `blobToDataURL` browser primitive (`FileReader.readAsDataURL`) on a
JPEG blob, as produced by `compressImage`'s `canvas.toBlob(..., 'image/jpeg')`:
the JPEG data-URL header followed by the base64 content. -/
def blobToDataURL (blob : List Nat) : List Char :=
  "data:image/jpeg;base64,".toList ++ encB64 blob

/-- The `dataURLToBase64` function of `imagesDB.ts`. -/
def dataURLToBase64 (cs : List Char) : List Char := stripDataUrl cs

/-- Model of the first `.replace('img:', 'meta:')` occurrence rewrite used to
derive the metadata key from an image key. -/
def metaKeyOf : List Char → List Char
  | [] => []
  | c :: rest =>
      if "img:".toList.isPrefixOf (c :: rest) then "meta:".toList ++ (c :: rest).drop 4
      else c :: metaKeyOf rest

/-- The two DOM storage tiers, each a key-value map of strings. -/
structure StoreWorld where
  localS : String → Option String
  sessionS : String → Option String

/-- Point update of one storage tier. -/
def setStore (m : String → Option String) (k v : String) : String → Option String :=
  fun k' => if k' = k then some v else m k'

/-- The `saveImageBlob` function: encode the blob, then write it (and the
optional metadata side-record) to `localStorage`; if that write throws, fall
back to `sessionStorage`.  The `localFull` flag is the oracle for whether the
primary-tier write throws (e.g. quota exceeded). -/
def saveImageBlob (key : String) (blob : List Nat) (metadata : Option String)
    (localFull : Bool) (w : StoreWorld) : StoreWorld :=
  let base64 := String.mk (dataURLToBase64 (blobToDataURL blob))
  if localFull then
    let w1 := { w with sessionS := setStore w.sessionS key base64 }
    match metadata with
    | some m => { w1 with sessionS := setStore w1.sessionS (String.mk (metaKeyOf key.toList)) m }
    | none => w1
  else
    let w1 := { w with localS := setStore w.localS key base64 }
    match metadata with
    | some m => { w1 with localS := setStore w1.localS (String.mk (metaKeyOf key.toList)) m }
    | none => w1

/-- The `getImageBlob` function: read `localStorage` falling back to
`sessionStorage` with JS `||` (the empty string is falsy), return absent when
neither tier holds a truthy value, otherwise decode the base64 content back
to bytes through `fetch` on a rebuilt JPEG data URL. -/
def getImageBlob (key : String) (w : StoreWorld) : Option (List Nat) :=
  match jsOrS (w.localS key) (w.sessionS key) with
  | none => none
  | some s => if s = "" then none else some (decB64 s.toList)

/-! Support lemmas for the data-URL header. -/

/-- A list is a `isPrefixOf` of itself followed by anything. -/
theorem isPrefixOf_append_self (l t : List Char) : l.isPrefixOf (l ++ t) = true := by
  induction l with
  | nil => simp [List.isPrefixOf]
  | cons a as ih => simp [List.isPrefixOf, ih]

/-- Stripping the JPEG data-URL header recovers exactly the base64 payload. -/
theorem stripDataUrl_jpeg (rest : List Char) :
    stripDataUrl ("data:image/jpeg;base64,".toList ++ rest) = rest := by
  have hsplit : ("data:image/jpeg;base64," : String).toList =
      "data:image/".toList ++ "jpeg;base64,".toList := by decide
  rw [hsplit, List.append_assoc]
  unfold stripDataUrl
  rw [if_pos (isPrefixOf_append_self _ _)]
  have hdrop : ("data:image/".toList ++ ("jpeg;base64,".toList ++ rest)).drop 11 =
      "jpeg;base64,".toList ++ rest := by
    have : ("data:image/".toList).length = 11 := by decide
    rw [← this, List.drop_left]
  rw [hdrop]
  have htake : ("jpeg;base64,".toList ++ rest).takeWhile mimeChar = "jpeg".toList := by
    show List.takeWhile mimeChar ('j' :: 'p' :: 'e' :: 'g' :: ';' :: ("base64,".toList ++ rest)) =
      "jpeg".toList
    rw [List.takeWhile_cons_of_pos (by decide), List.takeWhile_cons_of_pos (by decide),
      List.takeWhile_cons_of_pos (by decide), List.takeWhile_cons_of_pos (by decide),
      List.takeWhile_cons_of_neg (by decide)]
    rfl
  have hdropw : ("jpeg;base64,".toList ++ rest).dropWhile mimeChar =
      ";base64,".toList ++ rest := by
    show List.dropWhile mimeChar ('j' :: 'p' :: 'e' :: 'g' :: ';' :: ("base64,".toList ++ rest)) =
      ";base64,".toList ++ rest
    rw [List.dropWhile_cons_of_pos (by decide), List.dropWhile_cons_of_pos (by decide),
      List.dropWhile_cons_of_pos (by decide), List.dropWhile_cons_of_pos (by decide),
      List.dropWhile_cons_of_neg (by decide)]
    rfl
  rw [htake, hdropw]
  rw [if_pos ⟨by decide, isPrefixOf_append_self _ _⟩]
  have : (";base64,".toList).length = 8 := by decide
  rw [← this, List.drop_left]

/-- Encoding then stripping produces the stored base64 text. -/
theorem dataURLToBase64_blobToDataURL (blob : List Nat) :
    dataURLToBase64 (blobToDataURL blob) = encB64 blob := by
  unfold dataURLToBase64 blobToDataURL
  exact stripDataUrl_jpeg (encB64 blob)

/-- The metadata side-key of an image-namespace key differs from the key. -/
theorem metaKeyOf_imageKey_ne (period stationId : String) :
    String.mk (metaKeyOf (imageKey period stationId).toList) ≠ imageKey period stationId := by
  intro h
  have hdata : metaKeyOf (imageKey period stationId).toList =
      (imageKey period stationId).toList := congrArg String.toList h
  have hkey : (imageKey period stationId).toList =
      "img:".toList ++ (period ++ ":" ++ stationId).toList := by
    simp [imageKey, String.toList, String.data_append]
  rw [hkey] at hdata
  revert hdata
  show metaKeyOf ('i' :: 'm' :: 'g' :: ':' :: (period ++ ":" ++ stationId).toList) =
      'i' :: 'm' :: 'g' :: ':' :: (period ++ ":" ++ stationId).toList → False
  rw [metaKeyOf, if_pos (by exact isPrefixOf_append_self "img:".toList _)]
  intro hcontra
  have hlen := congrArg List.length hcontra
  simp at hlen

/-- An empty pair of storage tiers. -/
def emptyStoreWorld : StoreWorld := ⟨fun _ => none, fun _ => none⟩

/-- C7 counterexample: saving a blob with empty byte content and reading it
back does not return the content — the empty string stored for it is falsy
in `localStorage.getItem(key) || sessionStorage.getItem(key)` and in the
subsequent `if (!base64)` guard, so `getImageBlob` returns absent. -/
theorem saveImageBlob_empty_roundtrip_fails :
    ¬ (getImageBlob (imageKey "manha" "reference")
        (saveImageBlob (imageKey "manha" "reference") [] none false emptyStoreWorld) =
      some []) := by
  decide

/-- C7 amended: for every image-namespace key, every non-empty byte content,
and every metadata side-record, saving with `saveImageBlob` and reading back
with `getImageBlob` yields byte-identical content for whichever storage tier
the save landed in — provided, when the save fell back to the session tier,
that the local tier holds no entry shadowing the key. -/
theorem saveImageBlob_getImageBlob_roundtrip (period stationId : String)
    (blob : List Nat) (metadata : Option String) (localFull : Bool) (w : StoreWorld)
    (hbytes : ∀ x ∈ blob, x < 256) (hne : blob ≠ [])
    (hshadow : localFull = true → w.localS (imageKey period stationId) = none) :
    getImageBlob (imageKey period stationId)
      (saveImageBlob (imageKey period stationId) blob metadata localFull w) =
      some blob := by
  set key := imageKey period stationId with hkeydef
  have hmkne : key ≠ String.mk (metaKeyOf key.toList) :=
    (metaKeyOf_imageKey_ne period stationId).symm
  have hs : String.mk (dataURLToBase64 (blobToDataURL blob)) = String.mk (encB64 blob) := by
    rw [dataURLToBase64_blobToDataURL]
  have hsne : String.mk (encB64 blob) ≠ "" := by
    intro h
    exact encB64_ne_nil blob hne (by simpa [String.ext_iff] using h)
  have hdec : decB64 (String.mk (encB64 blob)).toList = blob := decB64_encB64 blob hbytes
  have hmkne2 : key ≠ String.mk (metaKeyOf key.data) := hmkne
  have hget : ∀ w' : StoreWorld,
      jsOrS (w'.localS key) (w'.sessionS key) = some (String.mk (encB64 blob)) →
      getImageBlob key w' = some blob := by
    intro w' h
    unfold getImageBlob
    rw [h]
    simp [hsne]
    exact decB64_encB64 blob hbytes
  cases localFull with
  | false =>
      cases metadata with
      | none =>
          refine hget _ ?_
          simp [saveImageBlob, hs, setStore, jsOrS, hsne]
      | some m =>
          refine hget _ ?_
          simp [saveImageBlob, hs, setStore, hmkne2, jsOrS, hsne]
  | true =>
      have hloc : w.localS key = none := hshadow rfl
      cases metadata with
      | none =>
          refine hget _ ?_
          simp [saveImageBlob, hs, setStore, hloc, jsOrS, hsne]
      | some m =>
          refine hget _ ?_
          simp [saveImageBlob, hs, setStore, hloc, hmkne2, jsOrS, hsne]

/-- Witness for the amended C7 round trip at a concrete key, content and
world: three bytes saved to the primary tier come back byte-identical. -/
theorem saveImageBlob_getImageBlob_roundtrip_witness :
    getImageBlob (imageKey "manha" "competitor_1")
      (saveImageBlob (imageKey "manha" "competitor_1") [255, 0, 128] none false
        emptyStoreWorld) = some [255, 0, 128] :=
  saveImageBlob_getImageBlob_roundtrip "manha" "competitor_1" [255, 0, 128] none false
    emptyStoreWorld (by decide) (by decide) (fun h => by simp [emptyStoreWorld])

/-! ## Compression geometry (`compressImage` in `imagesDB.ts`)

The pixel re-encoding is a canvas primitive; what the repository computes is
the output geometry: `scale = Math.min(1, maxSize / Math.max(w, h))`,
`canvas.width = Math.round(w * scale)`, `canvas.height = Math.round(h * scale)`.
Arithmetic is carried out exactly over `ℚ`. -/

/-- JS `Math.round`: half-up rounding, `⌊x + 1/2⌋`. -/
def jsRound (q : ℚ) : ℤ := ⌊q + 1 / 2⌋

/-- The scale factor `Math.min(1, maxSize / Math.max(img.width, img.height))`. -/
def compressScale (w h maxSize : ℕ) : ℚ :=
  min 1 ((maxSize : ℚ) / (max w h : ℕ))

/-- Output dimensions of `compressImage`: the rounded scaled width/height
assigned to the canvas. -/
def compressDims (w h maxSize : ℕ) : ℤ × ℤ :=
  (jsRound (w * compressScale w h maxSize), jsRound (h * compressScale w h maxSize))

/-- Rounding moves a rational by at most one half. -/
theorem jsRound_close (q : ℚ) : |(jsRound q : ℚ) - q| ≤ 1 / 2 := by
  rw [abs_sub_le_iff]
  constructor
  · have h1 : (⌊q + 1 / 2⌋ : ℚ) ≤ q + 1 / 2 := Int.floor_le _
    simp only [jsRound]
    linarith
  · have h2 : q + 1 / 2 - 1 < (⌊q + 1 / 2⌋ : ℚ) := Int.sub_one_lt_floor _
    simp only [jsRound]
    linarith

/-- C8: when the longer input dimension is already within the 600-pixel
bound, the scale factor clamps to 1 and the output dimensions equal the
input dimensions exactly; when it exceeds the bound, neither output
dimension exceeds 600 and the aspect ratio is preserved up to rounding
(cross products differ by at most half of each rounding step). -/
theorem compressDims_bound (w h : ℕ) (hpos : 0 < max w h) :
    (max w h ≤ 600 → compressDims w h 600 = ((w : ℤ), (h : ℤ))) ∧
    (600 < max w h →
      (compressDims w h 600).1 ≤ 600 ∧ (compressDims w h 600).2 ≤ 600 ∧
      |((compressDims w h 600).1 : ℚ) * h - ((compressDims w h 600).2 : ℚ) * w| ≤
        ((w : ℚ) + h) / 2) := by
  have hroundNat : ∀ n : ℕ, jsRound (n : ℚ) = (n : ℤ) := by
    intro n
    rw [jsRound, Int.floor_eq_iff]
    constructor
    · push_cast
      linarith
    · push_cast
      linarith
  have hmq : (0 : ℚ) < ((max w h : ℕ) : ℚ) := by exact_mod_cast hpos
  constructor
  · intro hle
    have hleq : ((max w h : ℕ) : ℚ) ≤ 600 := by exact_mod_cast hle
    have hscale : compressScale w h 600 = 1 := by
      rw [compressScale, min_eq_left]
      rw [le_div_iff₀ hmq]
      push_cast
      push_cast at hleq
      linarith
    rw [compressDims, hscale, mul_one, mul_one, hroundNat, hroundNat]
  · intro hgt
    have hgtq : (600 : ℚ) < ((max w h : ℕ) : ℚ) := by exact_mod_cast hgt
    have hscale : compressScale w h 600 = ((600 : ℕ) : ℚ) / ((max w h : ℕ) : ℚ) := by
      rw [compressScale, min_eq_right]
      rw [div_le_one hmq]
      push_cast
      push_cast at hgtq
      linarith
    set s : ℚ := ((600 : ℕ) : ℚ) / ((max w h : ℕ) : ℚ) with hsdef
    have h600 : ((600 : ℕ) : ℚ) = 600 := by norm_num
    have hws_le : (w : ℚ) * s ≤ 600 := by
      rw [hsdef, h600, mul_div_assoc']
      rw [div_le_iff₀ hmq]
      have hwle : (w : ℚ) ≤ ((max w h : ℕ) : ℚ) := by
        exact_mod_cast Nat.le_max_left w h
      nlinarith
    have hhs_le : (h : ℚ) * s ≤ 600 := by
      rw [hsdef, h600, mul_div_assoc']
      rw [div_le_iff₀ hmq]
      have hhle : (h : ℚ) ≤ ((max w h : ℕ) : ℚ) := by
        exact_mod_cast Nat.le_max_right w h
      nlinarith
    have hround_le : ∀ q : ℚ, q ≤ 600 → jsRound q ≤ 600 := by
      intro q hq
      rw [jsRound]
      have hlt : q + 1 / 2 < 601 := by linarith
      have hfl : ⌊q + 1 / 2⌋ < 601 := by
        rw [Int.floor_lt]
        exact_mod_cast hlt
      omega
    have hWfl : (compressDims w h 600).1 = jsRound ((w : ℚ) * s) := by
      rw [compressDims, hscale]
    have hHfl : (compressDims w h 600).2 = jsRound ((h : ℚ) * s) := by
      rw [compressDims, hscale]
    refine ⟨?_, ?_, ?_⟩
    · rw [hWfl]; exact hround_le _ hws_le
    · rw [hHfl]; exact hround_le _ hhs_le
    · rw [hWfl, hHfl]
      have hW := jsRound_close ((w : ℚ) * s)
      have hH := jsRound_close ((h : ℚ) * s)
      have key : ((jsRound ((w : ℚ) * s) : ℚ)) * h - ((jsRound ((h : ℚ) * s) : ℚ)) * w =
          ((jsRound ((w : ℚ) * s) : ℚ) - (w : ℚ) * s) * h -
            ((jsRound ((h : ℚ) * s) : ℚ) - (h : ℚ) * s) * w := by
        ring
      rw [key]
      have habs : |((jsRound ((w : ℚ) * s) : ℚ) - (w : ℚ) * s) * h -
          ((jsRound ((h : ℚ) * s) : ℚ) - (h : ℚ) * s) * w| ≤
          |(jsRound ((w : ℚ) * s) : ℚ) - (w : ℚ) * s| * h +
            |(jsRound ((h : ℚ) * s) : ℚ) - (h : ℚ) * s| * w := by
        calc |((jsRound ((w : ℚ) * s) : ℚ) - (w : ℚ) * s) * h -
            ((jsRound ((h : ℚ) * s) : ℚ) - (h : ℚ) * s) * w| ≤
            |((jsRound ((w : ℚ) * s) : ℚ) - (w : ℚ) * s) * h| +
              |((jsRound ((h : ℚ) * s) : ℚ) - (h : ℚ) * s) * w| := abs_sub _ _
          _ = |(jsRound ((w : ℚ) * s) : ℚ) - (w : ℚ) * s| * h +
              |(jsRound ((h : ℚ) * s) : ℚ) - (h : ℚ) * s| * w := by
            rw [abs_mul, abs_mul, abs_of_nonneg (by positivity : (0:ℚ) ≤ (h : ℚ)),
              abs_of_nonneg (by positivity : (0:ℚ) ≤ (w : ℚ))]
      have hhn : (0 : ℚ) ≤ (h : ℚ) := by positivity
      have hwn : (0 : ℚ) ≤ (w : ℚ) := by positivity
      nlinarith [habs, hW, hH]

/-- Witness for C8: a 400 by 300 input is returned at its own size, and the
bounds at a concrete oversized input are covered by the same theorem
instantiated at 1200 by 800. -/
theorem compressDims_bound_witness :
    compressDims 400 300 600 = (400, 300) ∧
    ((compressDims 1200 800 600).1 ≤ 600 ∧ (compressDims 1200 800 600).2 ≤ 600 ∧
      |((compressDims 1200 800 600).1 : ℚ) * 800 - ((compressDims 1200 800 600).2 : ℚ) * 1200| ≤
        ((1200 : ℚ) + 800) / 2) :=
  ⟨(compressDims_bound 400 300 (by decide)).1 (by decide),
   (compressDims_bound 1200 800 (by decide)).2 (by decide)⟩

/-! ## String-keyed maps

JS objects holding per-station records (`Record<string, T>`) are modelled as
association lists in property order, with JS semantics for read, assignment,
`delete`, object spread and `Object.keys`. -/

/-- A JS object with string keys. -/
abbrev Smap (α : Type) : Type := List (String × α)

/-- Empty object. -/
def emptyS {α : Type} : Smap α := []

/-- Property read `obj[k]`, `undefined` becoming `none`. -/
def lookupS {α : Type} : Smap α → String → Option α
  | [], _ => none
  | (k, v) :: rest, key => if k = key then some v else lookupS rest key

/-- Property assignment `obj[k] = v`: overwrite in place, or append. -/
def setS {α : Type} : Smap α → String → α → Smap α
  | [], key, v => [(key, v)]
  | (k, w) :: rest, key, v =>
      if k = key then (k, v) :: rest else (k, w) :: setS rest key v

/-- Property deletion `delete obj[k]`. -/
def delS {α : Type} (m : Smap α) (key : String) : Smap α :=
  m.filter (fun e => !(e.1 == key))

/-- `Object.keys obj`. -/
def keysS {α : Type} (m : Smap α) : List String := m.map (·.1)

/-- Object spread `{...a, ...b}`: `a`'s entries, overridden by `b` where
present, followed by `b`'s entries at fresh keys. -/
def spreadS {α : Type} (a b : Smap α) : Smap α :=
  a.map (fun e => (e.1, (lookupS b e.1).getD e.2)) ++
    b.filter (fun e => (lookupS a e.1).isNone)

@[simp] theorem lookupS_nil {α : Type} (k : String) : lookupS ([] : Smap α) k = none := rfl

@[simp] theorem lookupS_setS_self {α : Type} (m : Smap α) (k : String) (v : α) :
    lookupS (setS m k v) k = some v := by
  induction m with
  | nil => simp [setS, lookupS]
  | cons e rest ih =>
      obtain ⟨ke, ve⟩ := e
      by_cases hk : ke = k
      · simp [setS, hk, lookupS]
      · simp [setS, hk, lookupS, ih]

theorem lookupS_setS_ne {α : Type} (m : Smap α) (k k' : String) (v : α) (h : k' ≠ k) :
    lookupS (setS m k v) k' = lookupS m k' := by
  have hne : ¬ k = k' := fun he => h he.symm
  induction m with
  | nil => simp [setS, lookupS, hne]
  | cons e rest ih =>
      obtain ⟨ke, ve⟩ := e
      by_cases hk : ke = k
      · subst hk
        simp [setS, lookupS, hne]
      · simp only [setS, if_neg hk, lookupS]
        by_cases hk' : ke = k'
        · simp [hk']
        · simp [hk', ih]

@[simp] theorem lookupS_delS_self {α : Type} (m : Smap α) (k : String) :
    lookupS (delS m k) k = none := by
  induction m with
  | nil => simp [delS]
  | cons e rest ih =>
      obtain ⟨ke, ve⟩ := e
      by_cases hk : ke = k
      · simpa [delS, List.filter_cons, hk] using ih
      · simp only [delS, List.filter_cons] at ih ⊢
        simp [hk, lookupS, ih]

theorem lookupS_delS_ne {α : Type} (m : Smap α) (k k' : String) (h : k' ≠ k) :
    lookupS (delS m k) k' = lookupS m k' := by
  have hne : ¬ k = k' := fun he => h he.symm
  induction m with
  | nil => simp [delS]
  | cons e rest ih =>
      obtain ⟨ke, ve⟩ := e
      by_cases hk : ke = k
      · subst hk
        simp only [delS, List.filter_cons] at ih ⊢
        simpa [lookupS, hne] using ih
      · simp only [delS, List.filter_cons] at ih ⊢
        by_cases hk' : ke = k'
        · simp [hk, hk', lookupS, h]
        · simp [hk, hk', lookupS, ih]

/-- A successful lookup means the key is among `Object.keys`. -/
theorem mem_keysS_of_lookupS {α : Type} (m : Smap α) (k : String) (v : α)
    (h : lookupS m k = some v) : k ∈ keysS m := by
  induction m with
  | nil => simp [lookupS] at h
  | cons e rest ih =>
      obtain ⟨ke, ve⟩ := e
      by_cases hk : ke = k
      · simp [keysS, hk]
      · simp only [lookupS, if_neg hk] at h
        simp [keysS] at ih ⊢
        exact Or.inr (ih h)

/-- Lookup in a value-rewriting map. -/
theorem lookupS_mapVals {α : Type} (a : Smap α) (G : String → α → α) (k : String) :
    lookupS (a.map (fun e => (e.1, G e.1 e.2))) k = Option.map (G k) (lookupS a k) := by
  induction a with
  | nil => simp [lookupS]
  | cons e rest ih =>
      obtain ⟨ke, ve⟩ := e
      by_cases hk : ke = k
      · subst hk
        simp [lookupS]
      · simp [lookupS, hk, ih]

/-- Lookup in the fresh-keys segment of a spread. -/
theorem lookupS_filter_isNone {α : Type} (a b : Smap α) (k : String) :
    lookupS (b.filter (fun e => (lookupS a e.1).isNone)) k =
      if (lookupS a k).isNone then lookupS b k else none := by
  induction b with
  | nil => simp [lookupS]
  | cons e rest ih =>
      obtain ⟨ke, ve⟩ := e
      by_cases hk : ke = k
      · subst hk
        by_cases ha : (lookupS a ke).isNone
        · simp [List.filter_cons, ha, lookupS, ih]
        · simp [List.filter_cons, ha, lookupS, ih]
      · by_cases ha : (lookupS a ke).isNone
        · simp [List.filter_cons, ha, lookupS, hk, ih]
        · simp [List.filter_cons, ha, lookupS, hk, ih]

/-- Lookup over list append prefers the left segment. -/
theorem lookupS_append {α : Type} (a b : Smap α) (k : String) :
    lookupS (a ++ b) k = orO (lookupS a k) (lookupS b k) := by
  induction a with
  | nil => simp [lookupS, orO]
  | cons e rest ih =>
      obtain ⟨ke, ve⟩ := e
      by_cases hk : ke = k
      · simp [lookupS, hk, orO]
      · simp [lookupS, hk, ih]

/-- Spread lookup: the overriding object wins where present. -/
theorem lookupS_spreadS {α : Type} (a b : Smap α) (k : String) :
    lookupS (spreadS a b) k = orO (lookupS b k) (lookupS a k) := by
  rw [spreadS, lookupS_append, lookupS_mapVals (G := fun key v => (lookupS b key).getD v),
    lookupS_filter_isNone]
  cases ha : lookupS a k with
  | none =>
      simp [ha, Option.isNone]
      cases lookupS b k <;> simp [orO]
  | some va =>
      simp [ha, Option.isNone]
      cases lookupS b k <;> simp [orO]

/-! ## Application state store (`localStorage.ts`) -/

/-- The `PriceFields` record: four numeric-as-text fuel price fields. -/
structure PriceFields where
  etanol : String
  gasolinaComum : String
  gasolinaAditivada : String
  dieselS10 : String
deriving DecidableEq, Repr

/-- The nested `prices` object of a `StationData`. -/
structure Prices where
  vista : PriceFields
  prazo : PriceFields
deriving DecidableEq, Repr

/-- The optional stored `metadata` object of a `StationData` (timestamps as
ISO strings, a validation status and reason, and a GPS pair). -/
structure StoredMeta where
  dateTime : Option String
  make : Option String
  model : Option String
  software : Option String
  gpsLatitude : Option ℚ
  gpsLongitude : Option ℚ
  validationStatus : Option VStatus
  validationReason : Option String
deriving DecidableEq, Repr

/-- The `StationData` record. -/
structure StationData where
  photoBase64 : Option String
  noChange : Bool
  prices : Prices
  metadata : Option StoredMeta
deriving DecidableEq, Repr

/-- The two fixed reporting periods. -/
inductive PeriodKey where
  | manha
  | tarde
deriving DecidableEq, Repr

/-- Per-period `lastSent` timestamps (`Partial<Record<PeriodKey, string>>`). -/
structure LastSent where
  manha : Option String
  tarde : Option String
deriving DecidableEq, Repr

/-- The `config` aggregate member. -/
structure AppConfig where
  concorrentesCount : Nat
  webhookUrl : Option String
deriving DecidableEq, Repr

/-- The `meta` aggregate member. -/
structure AppMeta where
  lastEdited : Option String
  lastSent : Option LastSent
  names : Smap String
deriving DecidableEq, Repr

/-- One period bucket: a station-id-keyed record set. -/
structure PeriodData where
  stations : Smap StationData
deriving DecidableEq, Repr

/-- Both period buckets. -/
structure Periods where
  manha : PeriodData
  tarde : PeriodData
deriving DecidableEq, Repr

/-- The top-level persisted `AppState` aggregate. -/
structure AppState where
  config : AppConfig
  meta : AppMeta
  periods : Periods
deriving DecidableEq, Repr

/-- The `stationIdForIndex` function. -/
def stationIdForIndex (index : Nat) : String :=
  if index = 0 then "reference" else "competitor_" ++ toString index

/-- The `defaultNameForIndex` function. -/
def defaultNameForIndex (index : Nat) : String :=
  if index = 0 then "Posto Natureza: " else "Posto Concorrente " ++ toString index ++ ": "

/-- The `emptyPriceFields` constructor. -/
def emptyPriceFields : PriceFields :=
  { etanol := "", gasolinaComum := "", gasolinaAditivada := "", dieselS10 := "" }

/-- The `emptyStation` constructor. -/
def emptyStation : StationData :=
  { photoBase64 := some ""
    noChange := false
    prices := { vista := emptyPriceFields, prazo := emptyPriceFields }
    metadata := none }

/-- The default names object built by `buildDefaultState`'s loop. -/
def defaultNames (concorrentes : Nat) : Smap String :=
  (List.range (concorrentes + 1)).foldl
    (fun m i => setS m (stationIdForIndex i) (defaultNameForIndex i)) emptyS

/-- The default stations object built by `buildDefaultState`'s loop
(`structuredClone` gives each period an equal copy). -/
def defaultStations (concorrentes : Nat) : Smap StationData :=
  (List.range (concorrentes + 1)).foldl
    (fun m i => setS m (stationIdForIndex i) emptyStation) emptyS

/-- The `buildDefaultState` function; `now` is the `new Date().toISOString()`
reading stamped into `meta.lastEdited`. -/
def buildDefaultState (now : String) (concorrentes : Nat) : AppState :=
  { config := { concorrentesCount := concorrentes, webhookUrl := none }
    meta := { lastEdited := some now, lastSent := none, names := defaultNames concorrentes }
    periods := { manha := ⟨defaultStations concorrentes⟩, tarde := ⟨defaultStations concorrentes⟩ } }

/-! Parsed (post-`JSON.parse`) shapes: every member is optional, honouring
the optional chaining (`parsed?.config?.concorrentesCount ?? 1`,
`parsed.meta?.names || {}`, `parsed.periods?.[p]?.stations || {}`) in
`readAppState`. -/

/-- Parsed `config` fragment. -/
structure ParsedConfig where
  concorrentesCount : Option Nat
  webhookUrl : Option String
deriving DecidableEq, Repr

/-- Parsed `meta` fragment. -/
structure ParsedMeta where
  lastEdited : Option String
  lastSent : Option LastSent
  names : Option (Smap String)
deriving DecidableEq, Repr

/-- Parsed period fragment. -/
structure ParsedPeriod where
  stations : Option (Smap StationData)
deriving DecidableEq, Repr

/-- Parsed `periods` fragment. -/
structure ParsedPeriods where
  manha : Option ParsedPeriod
  tarde : Option ParsedPeriod
deriving DecidableEq, Repr

/-- A parsed stored aggregate of arbitrary shape. -/
structure ParsedState where
  config : Option ParsedConfig
  meta : Option ParsedMeta
  periods : Option ParsedPeriods
deriving DecidableEq, Repr

/-- What `localStorage.getItem(STORAGE_KEY)` plus `JSON.parse` can observably
produce: no stored value, a value on which `JSON.parse` throws, or a parsed
object of arbitrary shape. -/
inductive RawStored where
  | missing
  | corrupt
  | parsed (p : ParsedState)
deriving DecidableEq, Repr

/-- The `readAppState` function: missing or unparseable data falls back to a
fresh default aggregate; parsed data is merged field-by-field over a
default-shaped skeleton rebuilt for the stored competitor count. -/
def readAppState (now : String) : RawStored → AppState
  | .missing => buildDefaultState now 1
  | .corrupt => buildDefaultState now 1
  | .parsed p =>
      let concorrentes := (Option.bind p.config (fun c => c.concorrentesCount)).getD 1
      let safe := buildDefaultState now concorrentes
      let mergedMeta : AppMeta :=
        match p.meta with
        | some pm =>
            { lastEdited := orO pm.lastEdited safe.meta.lastEdited
              lastSent := orO pm.lastSent safe.meta.lastSent
              names := spreadS safe.meta.names ((Option.bind p.meta (fun m => m.names)).getD emptyS) }
        | none =>
            { safe.meta with
                names := spreadS safe.meta.names ((Option.bind p.meta (fun m => m.names)).getD emptyS) }
      let incM := ((Option.bind p.periods (fun pp => pp.manha)).bind (fun q => q.stations)).getD emptyS
      let incT := ((Option.bind p.periods (fun pp => pp.tarde)).bind (fun q => q.stations)).getD emptyS
      { config := { concorrentesCount := concorrentes
                    webhookUrl := Option.bind p.config (fun c => c.webhookUrl) }
        meta := mergedMeta
        periods := { manha := ⟨spreadS safe.periods.manha.stations incM⟩
                     tarde := ⟨spreadS safe.periods.tarde.stations incT⟩ } }

/-- Serialization of a well-formed aggregate back into parsed shape
(`JSON.stringify` then `JSON.parse` round trip of `saveAppState`'s write). -/
def toParsed (s : AppState) : ParsedState :=
  { config := some { concorrentesCount := some s.config.concorrentesCount
                     webhookUrl := s.config.webhookUrl }
    meta := some { lastEdited := s.meta.lastEdited
                   lastSent := s.meta.lastSent
                   names := some s.meta.names }
    periods := some { manha := some ⟨some s.periods.manha.stations⟩
                      tarde := some ⟨some s.periods.tarde.stations⟩ } }

/-- The observable process state around the store: the persisted value under
the aggregate key, and the count of `app-state-updated` broadcasts. -/
structure AppWorld where
  stored : RawStored
  events : Nat
deriving DecidableEq, Repr

/-- The `saveAppState` function: stamp `lastEdited`, serialize the whole
aggregate to the storage key, and dispatch a change event. -/
def saveAppState (now : String) (s : AppState) (w : AppWorld) : AppWorld :=
  { stored := .parsed (toParsed { s with meta := { s.meta with lastEdited := some now } })
    events := w.events + 1 }

/-- The name fill-in of `setConcorrentesCount`'s first loop:
`if (!state.meta.names[id]) state.meta.names[id] = defaultNameForIndex(i)`
(the name is re-filled when missing or empty, per JS `!` truthiness). -/
def addName (st : AppState) (i : Nat) : AppState :=
  if falsyS (lookupS st.meta.names (stationIdForIndex i)) then
    { st with meta := { st.meta with
        names := setS st.meta.names (stationIdForIndex i) (defaultNameForIndex i) } }
  else st

/-- The morning-record fill-in of the first loop:
`if (!state.periods.manha.stations[id]) ... = emptyStation()`. -/
def addManha (st : AppState) (i : Nat) : AppState :=
  if (lookupS st.periods.manha.stations (stationIdForIndex i)).isNone then
    { st with periods := { st.periods with
        manha := ⟨setS st.periods.manha.stations (stationIdForIndex i) emptyStation⟩ } }
  else st

/-- The afternoon-record fill-in of the first loop. -/
def addTarde (st : AppState) (i : Nat) : AppState :=
  if (lookupS st.periods.tarde.stations (stationIdForIndex i)).isNone then
    { st with periods := { st.periods with
        tarde := ⟨setS st.periods.tarde.stations (stationIdForIndex i) emptyStation⟩ } }
  else st

/-- One pass of `setConcorrentesCount`'s first loop at index `i`. -/
def addSlot (st : AppState) (i : Nat) : AppState :=
  addTarde (addManha (addName st i) i) i

/-- One pass of `setConcorrentesCount`'s removal loop at index `i`: delete
the name entry and both period records of the slot. -/
def delSlot (st : AppState) (i : Nat) : AppState :=
  let id := stationIdForIndex i
  { st with
      meta := { st.meta with names := delS st.meta.names id }
      periods := { manha := ⟨delS st.periods.manha.stations id⟩
                   tarde := ⟨delS st.periods.tarde.stations id⟩ } }

/-- The pure mutation performed by `setConcorrentesCount` when the requested
count differs from the current one: fill slots `0..count`, delete slots
`count+1..20`, and record the new count. -/
def mutateCount (count : Nat) (st : AppState) : AppState :=
  let afterAdd := (List.range (count + 1)).foldl addSlot st
  let afterDel := (List.range' (count + 1) (20 - count)).foldl delSlot afterAdd
  { afterDel with config := { afterDel.config with concorrentesCount := count } }

/-- The `setConcorrentesCount` function: read the persisted aggregate, return
it unchanged when the count is already current, otherwise adjust the names
and station collections, persist, and return the new state. -/
def setConcorrentesCount (count : Nat) (now : String) (w : AppWorld) : AppState × AppWorld :=
  let state := readAppState now w.stored
  let current := state.config.concorrentesCount
  if count = current then (state, w)
  else
    let final := mutateCount count state
    (final, saveAppState now final w)

/-- The compiled-in `INTERNAL_WEBHOOK_URL` constant of `config/webhook.ts`. -/
def INTERNAL_WEBHOOK_URL : Option String :=
  some "https://criadordigital-n8n-webhook.xpr5o6.easypanel.host/webhook/SiteFormulario2"

/-- The hard-coded default endpoint of `getWebhookUrl`. -/
def DEFAULT_WEBHOOK_URL : String :=
  "https://criadordigital-n8n-editor.xpr5o6.easypanel.host/webhook/SiteFormulario"

/-- The `getWebhookUrl` resolution chain, parameterized over the compiled-in
override and the three environment variables it consults
(`NEXT_PUBLIC_WEBHOOK_URL`, `REACT_APP_WEBHOOK_URL`, `VITE_WEBHOOK_URL`),
which are build-environment inputs; in this build the override is
`INTERNAL_WEBHOOK_URL`. -/
def getWebhookUrl (internal envNext envReact envVite : Option String)
    (now : String) (stored : RawStored) : String :=
  match truthyS internal with
  | some s => s
  | none =>
      match truthyS (jsOrS envNext (jsOrS envReact envVite)) with
      | some e => e
      | none =>
          match truthyS (readAppState now stored).config.webhookUrl with
          | some t => t
          | none => DEFAULT_WEBHOOK_URL

/-! ## Successful submission transform (`PriceForm.onSubmit`)

The state change applied after a 2xx webhook response: stamp `lastSent`, on
a morning submission copy the morning price blocks verbatim into the
afternoon records of stations present in both periods (with `noChange`
reset so the afternoon stays editable), then clear the submitted period's
photos, metadata and `noChange` flags while keeping its price values. -/

/-- Projection of the two period buckets by key. -/
def stationsOf (s : AppState) (p : PeriodKey) : Smap StationData :=
  match p with
  | .manha => s.periods.manha.stations
  | .tarde => s.periods.tarde.stations

/-- One pass of the morning-to-afternoon copy loop at station `sid`: when the
station exists in both periods, replace the afternoon record's price blocks
with fresh copies of the morning ones and reset its `noChange` flag. -/
def copyStep (st : AppState) (sid : String) : AppState :=
  match lookupS st.periods.manha.stations sid, lookupS st.periods.tarde.stations sid with
  | some morningStation, some afternoonStation =>
      { st with periods := { st.periods with
          tarde := ⟨setS st.periods.tarde.stations sid
            { afternoonStation with
                prices := { vista := morningStation.prices.vista
                            prazo := morningStation.prices.prazo }
                noChange := false }⟩ } }
  | _, _ => st

/-- The per-record clearing applied to the submitted period: photo emptied,
metadata dropped, `noChange` reset, prices untouched. -/
def clearedStation (st : StationData) : StationData :=
  { st with photoBase64 := some "", metadata := none, noChange := false }

/-- One pass of the clear loop at station `sid` in period `p`. -/
def clearStep (p : PeriodKey) (st : AppState) (sid : String) : AppState :=
  match lookupS (stationsOf st p) sid with
  | some v =>
      match p with
      | .manha => { st with periods := { st.periods with
          manha := ⟨setS st.periods.manha.stations sid (clearedStation v)⟩ } }
      | .tarde => { st with periods := { st.periods with
          tarde := ⟨setS st.periods.tarde.stations sid (clearedStation v)⟩ } }
  | none => st

/-- The `lastSent` stamping of `onSubmit`:
`next.meta.lastSent = {...(next.meta.lastSent || {}), [period]: now}`. -/
def submitStamp (period : PeriodKey) (now : String) (s : AppState) : AppState :=
  let prevSent := (orO s.meta.lastSent (some ⟨none, none⟩)).getD ⟨none, none⟩
  let sent : LastSent :=
    match period with
    | .manha => { prevSent with manha := some now }
    | .tarde => { prevSent with tarde := some now }
  { s with meta := { s.meta with lastSent := some sent } }

/-- The success-path state transform of `onSubmit` (after `res.ok`): update
`lastSent[period]`, copy morning prices to the afternoon when the morning
period was submitted, then clear the submitted period's photos and flags. -/
def onSubmitSuccess (period : PeriodKey) (now : String) (s : AppState) : AppState :=
  let s1 := submitStamp period now s
  let s2 :=
    if period = .manha then
      (keysS s1.periods.manha.stations).foldl copyStep s1
    else s1
  (keysS (stationsOf s2 period)).foldl (clearStep period) s2

/-! ## Claim C4: webhook URL resolution precedence -/

/-- C4: `getWebhookUrl` resolves by precedence — a non-empty compiled-in
override wins; otherwise the first non-empty environment variable; otherwise
a non-empty stored URL from the persisted application state; otherwise the
hard-coded default endpoint.  In particular, with the override, the
environment and the stored URL all absent or empty, the hard-coded default
endpoint string is returned. -/
theorem getWebhookUrl_precedence (internal envN envR envV : Option String)
    (now : String) (stored : RawStored) :
    (∀ s : String, internal = some s → s ≠ "" →
      getWebhookUrl internal envN envR envV now stored = s) ∧
    (∀ e : String, truthyS internal = none →
      truthyS (jsOrS envN (jsOrS envR envV)) = some e →
      getWebhookUrl internal envN envR envV now stored = e) ∧
    (∀ t : String, truthyS internal = none →
      truthyS (jsOrS envN (jsOrS envR envV)) = none →
      truthyS (readAppState now stored).config.webhookUrl = some t →
      getWebhookUrl internal envN envR envV now stored = t) ∧
    (truthyS internal = none →
      truthyS (jsOrS envN (jsOrS envR envV)) = none →
      truthyS (readAppState now stored).config.webhookUrl = none →
      getWebhookUrl internal envN envR envV now stored = DEFAULT_WEBHOOK_URL) := by
  refine ⟨?_, ?_, ?_, ?_⟩
  · intro s hi hs
    subst hi
    simp [getWebhookUrl, truthyS, hs]
  · intro e hi he
    rw [getWebhookUrl, hi, he]
  · intro t hi he ht
    rw [getWebhookUrl, hi, he, ht]
  · intro hi he ht
    rw [getWebhookUrl, hi, he, ht]

/-- Witness for C4 at the concrete no-override, no-environment, no-stored-URL
configuration: the hard-coded default endpoint is returned. -/
theorem getWebhookUrl_precedence_witness :
    getWebhookUrl none none none none "2025-10-11T12:00:00.000Z" .missing =
      DEFAULT_WEBHOOK_URL :=
  (getWebhookUrl_precedence none none none none "2025-10-11T12:00:00.000Z" .missing).2.2.2
    rfl rfl rfl

/-! ## Claim C10: no-op competitor-count update -/

/-- C10: calling `setConcorrentesCount` with the currently stored competitor
count returns the read state unchanged and leaves the world untouched — no
station record or name is modified, nothing is written back to storage (so
`lastEdited` is not re-stamped), and no change event is broadcast. -/
theorem setConcorrentesCount_noop (w : AppWorld) (now : String) :
    setConcorrentesCount ((readAppState now w.stored).config.concorrentesCount) now w =
      (readAppState now w.stored, w) := by
  simp [setConcorrentesCount]

/-! ## Claim C5: resilient state loading -/

/-- Unfolding of the default-stations skeleton one slot at a time. -/
theorem defaultStations_succ (c : Nat) :
    defaultStations (c + 1) =
      setS (defaultStations c) (stationIdForIndex (c + 1)) emptyStation := by
  rw [defaultStations, defaultStations, List.range_succ, List.foldl_append]
  rfl

/-- Unfolding of the default-names skeleton one slot at a time. -/
theorem defaultNames_succ (c : Nat) :
    defaultNames (c + 1) =
      setS (defaultNames c) (stationIdForIndex (c + 1)) (defaultNameForIndex (c + 1)) := by
  rw [defaultNames, defaultNames, List.range_succ, List.foldl_append]
  rfl

/-- The default skeleton holds a record for every expected slot. -/
theorem defaultStations_isSome (c : Nat) :
    ∀ i : Nat, i ≤ c → (lookupS (defaultStations c) (stationIdForIndex i)).isSome = true := by
  induction c with
  | zero =>
      intro i hi
      interval_cases i
      simp [defaultStations, List.range, List.range.loop, emptyS]
  | succ c ih =>
      intro i hi
      rw [defaultStations_succ]
      by_cases he : stationIdForIndex i = stationIdForIndex (c + 1)
      · rw [he, lookupS_setS_self]
        rfl
      · rw [lookupS_setS_ne _ _ _ _ he]
        rcases Nat.lt_or_ge i (c + 1) with hlt | hge
        · exact ih i (Nat.lt_succ_iff.mp hlt)
        · exact absurd (congrArg stationIdForIndex (Nat.le_antisymm hi hge)) he

/-- The orO fallback is present whenever its right operand is. -/
theorem orO_isSome_right {α : Type} (a b : Option α) (h : b.isSome = true) :
    (orO a b).isSome = true := by
  cases a with
  | some x => rfl
  | none => exact h

/-- C5: `readAppState` is total on every observable stored value; missing or
unparseable data yields exactly the freshly built default aggregate (whose
competitor count is 1), and parseable data of arbitrary shape yields a state
in which every expected station key for the stored competitor count is
present in both periods after the merge. -/
theorem readAppState_resilient (now : String) :
    (readAppState now .missing = buildDefaultState now 1 ∧
     readAppState now .corrupt = buildDefaultState now 1 ∧
     (buildDefaultState now 1).config.concorrentesCount = 1) ∧
    (∀ (p : ParsedState) (i : Nat),
      i ≤ (Option.bind p.config (fun c => c.concorrentesCount)).getD 1 →
      (lookupS (readAppState now (.parsed p)).periods.manha.stations
          (stationIdForIndex i)).isSome = true ∧
      (lookupS (readAppState now (.parsed p)).periods.tarde.stations
          (stationIdForIndex i)).isSome = true) := by
  refine ⟨⟨rfl, rfl, rfl⟩, ?_⟩
  intro p i hi
  have hdef := defaultStations_isSome
    ((Option.bind p.config (fun c => c.concorrentesCount)).getD 1) i hi
  constructor
  · cases hp : p.meta with
    | some pm =>
        simp only [readAppState, hp, lookupS_spreadS]
        exact orO_isSome_right _ _ hdef
    | none =>
        simp only [readAppState, hp, lookupS_spreadS]
        exact orO_isSome_right _ _ hdef
  · cases hp : p.meta with
    | some pm =>
        simp only [readAppState, hp, lookupS_spreadS]
        exact orO_isSome_right _ _ hdef
    | none =>
        simp only [readAppState, hp, lookupS_spreadS]
        exact orO_isSome_right _ _ hdef

/-- Witness for C5 at a concrete parsed value with every member absent:
slot 1 (the single default competitor) is present in both periods. -/
theorem readAppState_resilient_witness :
    (lookupS (readAppState "2025-10-11T12:00:00.000Z"
        (.parsed ⟨none, none, none⟩)).periods.manha.stations
      (stationIdForIndex 1)).isSome = true ∧
    (lookupS (readAppState "2025-10-11T12:00:00.000Z"
        (.parsed ⟨none, none, none⟩)).periods.tarde.stations
      (stationIdForIndex 1)).isSome = true :=
  (readAppState_resilient "2025-10-11T12:00:00.000Z").2 ⟨none, none, none⟩ 1 (by decide)

/-! ## Claim C6: morning submission copies prices to the afternoon -/

/-- The copy loop never touches the morning bucket. -/
theorem copyStep_manha (st : AppState) (sid : String) :
    (copyStep st sid).periods.manha.stations = st.periods.manha.stations := by
  rw [copyStep]
  split <;> rfl

/-- The copy loop never touches the morning bucket (fold form). -/
theorem copyFold_manha (L : List String) (st : AppState) :
    ((L.foldl copyStep st)).periods.manha.stations = st.periods.manha.stations := by
  induction L generalizing st with
  | nil => rfl
  | cons k L ih => rw [List.foldl_cons, ih, copyStep_manha]

/-- One copy pass leaves afternoon records at other keys unchanged. -/
theorem copyStep_tarde_ne (st : AppState) (sid sid' : String) (h : sid' ≠ sid) :
    lookupS (copyStep st sid).periods.tarde.stations sid' =
      lookupS st.periods.tarde.stations sid' := by
  rw [copyStep]
  split
  · exact lookupS_setS_ne _ _ _ _ h
  · rfl

/-- The copy fold leaves afternoon records at unvisited keys unchanged. -/
theorem copyFold_tarde_frame (L : List String) (st : AppState) (sid : String)
    (h : sid ∉ L) :
    lookupS ((L.foldl copyStep st)).periods.tarde.stations sid =
      lookupS st.periods.tarde.stations sid := by
  induction L generalizing st with
  | nil => rfl
  | cons k L ih =>
      rw [List.foldl_cons, ih _ (fun hm => h (List.mem_cons_of_mem _ hm)),
        copyStep_tarde_ne _ _ _ (fun he => h (List.mem_cons.mpr (Or.inl he)))]

/-- The copy fold rewrites the afternoon record of every station present in
both periods with the morning price blocks and a cleared `noChange` flag. -/
theorem copyFold_tarde_hit (L : List String) (st : AppState) (sid : String)
    (ms as_ : StationData)
    (hnd : L.Nodup) (hmem : sid ∈ L)
    (hm : lookupS st.periods.manha.stations sid = some ms)
    (ht : lookupS st.periods.tarde.stations sid = some as_) :
    lookupS ((L.foldl copyStep st)).periods.tarde.stations sid =
      some { as_ with prices := { vista := ms.prices.vista, prazo := ms.prices.prazo }
                      noChange := false } := by
  induction L generalizing st with
  | nil => exact absurd hmem (List.not_mem_nil sid)
  | cons k L ih =>
      rw [List.foldl_cons]
      rcases List.nodup_cons.mp hnd with ⟨hknotin, hndL⟩
      by_cases he : sid = k
      · subst he
        have hstep : lookupS (copyStep st sid).periods.tarde.stations sid =
            some { as_ with prices := { vista := ms.prices.vista, prazo := ms.prices.prazo }
                            noChange := false } := by
          rw [copyStep, hm, ht]
          exact lookupS_setS_self _ _ _
        rw [copyFold_tarde_frame _ _ _ hknotin, hstep]
      · have hmem' : sid ∈ L := by
          rcases List.mem_cons.mp hmem with h1 | h1
          · exact absurd h1 he
          · exact h1
        exact ih _ hndL hmem' (by rw [copyStep_manha]; exact hm)
          (by rw [copyStep_tarde_ne _ _ _ he]; exact ht)

/-- The morning clear loop never touches the afternoon bucket. -/
theorem clearStep_manha_tarde (st : AppState) (sid : String) :
    (clearStep .manha st sid).periods.tarde.stations = st.periods.tarde.stations := by
  rw [clearStep]
  split <;> rfl

/-- The morning clear fold never touches the afternoon bucket. -/
theorem clearFold_manha_tarde (L : List String) (st : AppState) :
    ((L.foldl (clearStep .manha) st)).periods.tarde.stations =
      st.periods.tarde.stations := by
  induction L generalizing st with
  | nil => rfl
  | cons k L ih => rw [List.foldl_cons, ih, clearStep_manha_tarde]

/-- One clear pass leaves morning records at other keys unchanged. -/
theorem clearStep_manha_ne (st : AppState) (sid sid' : String) (h : sid' ≠ sid) :
    lookupS (clearStep .manha st sid).periods.manha.stations sid' =
      lookupS st.periods.manha.stations sid' := by
  rw [clearStep]
  rcases hx : lookupS (stationsOf st .manha) sid with _ | v
  · rfl
  · exact lookupS_setS_ne _ _ _ _ h

/-- The clear fold leaves morning records at unvisited keys unchanged. -/
theorem clearFold_manha_frame (L : List String) (st : AppState) (sid : String)
    (h : sid ∉ L) :
    lookupS ((L.foldl (clearStep .manha) st)).periods.manha.stations sid =
      lookupS st.periods.manha.stations sid := by
  induction L generalizing st with
  | nil => rfl
  | cons k L ih =>
      rw [List.foldl_cons, ih _ (fun hm => h (List.mem_cons_of_mem _ hm)),
        clearStep_manha_ne _ _ _ (fun he => h (List.mem_cons.mpr (Or.inl he)))]

/-- The clear fold replaces every visited morning record by its cleared
version. -/
theorem clearFold_manha_hit (L : List String) (st : AppState) (sid : String)
    (v : StationData)
    (hnd : L.Nodup) (hmem : sid ∈ L)
    (hv : lookupS st.periods.manha.stations sid = some v) :
    lookupS ((L.foldl (clearStep .manha) st)).periods.manha.stations sid =
      some (clearedStation v) := by
  induction L generalizing st with
  | nil => exact absurd hmem (List.not_mem_nil sid)
  | cons k L ih =>
      rw [List.foldl_cons]
      rcases List.nodup_cons.mp hnd with ⟨hknotin, hndL⟩
      by_cases he : sid = k
      · subst he
        have hstep : lookupS (clearStep .manha st sid).periods.manha.stations sid =
            some (clearedStation v) := by
          rw [clearStep]
          show lookupS
            (match lookupS st.periods.manha.stations sid with
              | some v => { st with periods := { st.periods with
                  manha := ⟨setS st.periods.manha.stations sid (clearedStation v)⟩ } }
              | none => st).periods.manha.stations sid = some (clearedStation v)
          rw [hv]
          exact lookupS_setS_self _ _ _
        rw [clearFold_manha_frame _ _ _ hknotin, hstep]
      · have hmem' : sid ∈ L := by
          rcases List.mem_cons.mp hmem with h1 | h1
          · exact absurd h1 he
          · exact h1
        exact ih _ hndL hmem' (by rw [clearStep_manha_ne _ _ _ he]; exact hv)

/-- C6: on a successful morning submission, every station present in both
periods ends with its afternoon price blocks equal, verbatim, to the
morning's pre-submission price blocks and its afternoon `noChange` flag
reset; and every morning record ends with its photo cleared to the empty
string, its metadata removed and its `noChange` flag reset, while its own
price fields are kept (only photo, metadata and flag change). -/
theorem onSubmitSuccess_manha_spec (s : AppState) (now : String)
    (hnd : (keysS s.periods.manha.stations).Nodup) :
    (∀ (sid : String) (ms as_ : StationData),
      lookupS s.periods.manha.stations sid = some ms →
      lookupS s.periods.tarde.stations sid = some as_ →
      lookupS (onSubmitSuccess .manha now s).periods.tarde.stations sid =
        some { as_ with prices := { vista := ms.prices.vista, prazo := ms.prices.prazo }
                        noChange := false }) ∧
    (∀ (sid : String) (ms : StationData),
      lookupS s.periods.manha.stations sid = some ms →
      lookupS (onSubmitSuccess .manha now s).periods.manha.stations sid =
        some { ms with photoBase64 := some "", metadata := none, noChange := false }) := by
  have hexp : onSubmitSuccess .manha now s =
      (keysS (((keysS s.periods.manha.stations).foldl copyStep
          (submitStamp .manha now s)).periods.manha.stations)).foldl
        (clearStep .manha)
        ((keysS s.periods.manha.stations).foldl copyStep (submitStamp .manha now s)) := rfl
  have hm2 : (((keysS s.periods.manha.stations).foldl copyStep
      (submitStamp .manha now s)).periods.manha.stations) = s.periods.manha.stations := by
    rw [copyFold_manha]
    rfl
  constructor
  · intro sid ms as_ hm ht
    rw [hexp, clearFold_manha_tarde]
    exact copyFold_tarde_hit _ _ sid ms as_ hnd (mem_keysS_of_lookupS _ _ _ hm) hm ht
  · intro sid ms hm
    rw [hexp]
    have hres := clearFold_manha_hit
      (keysS (((keysS s.periods.manha.stations).foldl copyStep
        (submitStamp .manha now s)).periods.manha.stations))
      ((keysS s.periods.manha.stations).foldl copyStep (submitStamp .manha now s))
      sid ms (by rw [hm2]; exact hnd) (by rw [hm2]; exact mem_keysS_of_lookupS _ _ _ hm)
      (by rw [hm2]; exact hm)
    exact hres

/-- Witness for C6 at a concrete two-period state holding one station with
distinct morning and afternoon data. -/
theorem onSubmitSuccess_manha_spec_witness :
    lookupS (onSubmitSuccess .manha "2025-10-11T12:00:00.000Z"
        { config := { concorrentesCount := 0, webhookUrl := none }
          meta := { lastEdited := none, lastSent := none
                    names := [("reference", "Posto Natureza: ")] }
          periods :=
            { manha := ⟨[("reference",
                { photoBase64 := some "QUJD"
                  noChange := true
                  prices := { vista := { etanol := "5,79", gasolinaComum := "6,09"
                                         gasolinaAditivada := "6,19", dieselS10 := "6,49" }
                              prazo := { etanol := "5,89", gasolinaComum := "6,19"
                                         gasolinaAditivada := "6,29", dieselS10 := "6,59" } }
                  metadata := none })]⟩
              tarde := ⟨[("reference", emptyStation)]⟩ } }).periods.tarde.stations
      "reference" =
      some { photoBase64 := some ""
             noChange := false
             prices := { vista := { etanol := "5,79", gasolinaComum := "6,09"
                                    gasolinaAditivada := "6,19", dieselS10 := "6,49" }
                         prazo := { etanol := "5,89", gasolinaComum := "6,19"
                                    gasolinaAditivada := "6,29", dieselS10 := "6,59" } }
             metadata := none } :=
  (onSubmitSuccess_manha_spec _ "2025-10-11T12:00:00.000Z" (by decide)).1 "reference"
    { photoBase64 := some "QUJD"
      noChange := true
      prices := { vista := { etanol := "5,79", gasolinaComum := "6,09"
                             gasolinaAditivada := "6,19", dieselS10 := "6,49" }
                  prazo := { etanol := "5,89", gasolinaComum := "6,19"
                             gasolinaAditivada := "6,29", dieselS10 := "6,59" } }
      metadata := none }
    emptyStation (by decide) (by decide)

/-! ## Claim C9: no stale data after shrinking and re-growing the slot set -/

/-- The fill-in loop preserves an existing morning record at any key. -/
theorem addSlot_manha_some (st : AppState) (i : Nat) (k : String) (v : StationData)
    (h : lookupS st.periods.manha.stations k = some v) :
    lookupS (addSlot st i).periods.manha.stations k = some v := by
  have hname : (addName st i).periods = st.periods := by
    rw [addName]; split <;> rfl
  have h1 : lookupS (addName st i).periods.manha.stations k = some v := by rw [hname]; exact h
  have h2 : lookupS (addManha (addName st i) i).periods.manha.stations k = some v := by
    rw [addManha]
    split
    · by_cases he : stationIdForIndex i = k
      · rename_i hcond
        rw [he] at hcond
        rw [h1] at hcond
        simp at hcond
      · show lookupS (setS (addName st i).periods.manha.stations (stationIdForIndex i)
          emptyStation) k = some v
        rw [lookupS_setS_ne _ _ _ _ (fun hk => he hk.symm)]
        exact h1
    · exact h1
  have htarde : ∀ s : AppState, (addTarde s i).periods.manha = s.periods.manha := by
    intro s
    rw [addTarde]; split <;> rfl
  rw [addSlot, htarde]
  exact h2

/-- The fill-in loop preserves an existing afternoon record at any key. -/
theorem addSlot_tarde_some (st : AppState) (i : Nat) (k : String) (v : StationData)
    (h : lookupS st.periods.tarde.stations k = some v) :
    lookupS (addSlot st i).periods.tarde.stations k = some v := by
  have hname : (addName st i).periods = st.periods := by
    rw [addName]; split <;> rfl
  have hmanha : ∀ s : AppState, (addManha s i).periods.tarde = s.periods.tarde := by
    intro s
    rw [addManha]; split <;> rfl
  have h2 : lookupS (addManha (addName st i) i).periods.tarde.stations k = some v := by
    rw [hmanha, hname]; exact h
  rw [addSlot, addTarde]
  split
  · by_cases he : stationIdForIndex i = k
    · rename_i hcond
      rw [he] at hcond
      rw [h2] at hcond
      simp at hcond
    · show lookupS (setS (addManha (addName st i) i).periods.tarde.stations
        (stationIdForIndex i) emptyStation) k = some v
      rw [lookupS_setS_ne _ _ _ _ (fun hk => he hk.symm)]
      exact h2
  · exact h2

/-- The fill-in loop leaves morning records at other keys unchanged. -/
theorem addSlot_manha_ne (st : AppState) (i : Nat) (k : String)
    (h : stationIdForIndex i ≠ k) :
    lookupS (addSlot st i).periods.manha.stations k =
      lookupS st.periods.manha.stations k := by
  have hname : (addName st i).periods = st.periods := by
    rw [addName]; split <;> rfl
  have htarde : ∀ s : AppState, (addTarde s i).periods.manha = s.periods.manha := by
    intro s
    rw [addTarde]; split <;> rfl
  rw [addSlot, htarde, addManha]
  split
  · show lookupS (setS (addName st i).periods.manha.stations (stationIdForIndex i)
      emptyStation) k = _
    rw [lookupS_setS_ne _ _ _ _ (fun hk => h hk.symm), hname]
  · rw [hname]

/-- The fill-in loop leaves afternoon records at other keys unchanged. -/
theorem addSlot_tarde_ne (st : AppState) (i : Nat) (k : String)
    (h : stationIdForIndex i ≠ k) :
    lookupS (addSlot st i).periods.tarde.stations k =
      lookupS st.periods.tarde.stations k := by
  have hname : (addName st i).periods = st.periods := by
    rw [addName]; split <;> rfl
  have hmanha : ∀ s : AppState, (addManha s i).periods.tarde = s.periods.tarde := by
    intro s
    rw [addManha]; split <;> rfl
  rw [addSlot, addTarde]
  split
  · show lookupS (setS (addManha (addName st i) i).periods.tarde.stations
      (stationIdForIndex i) emptyStation) k = _
    rw [lookupS_setS_ne _ _ _ _ (fun hk => h hk.symm), hmanha, hname]
  · rw [hmanha, hname]

/-- The fill-in loop installs the default record at a missing slot. -/
theorem addSlot_manha_fill (st : AppState) (i : Nat)
    (h : lookupS st.periods.manha.stations (stationIdForIndex i) = none) :
    lookupS (addSlot st i).periods.manha.stations (stationIdForIndex i) =
      some emptyStation := by
  have hname : (addName st i).periods = st.periods := by
    rw [addName]; split <;> rfl
  have htarde : ∀ s : AppState, (addTarde s i).periods.manha = s.periods.manha := by
    intro s
    rw [addTarde]; split <;> rfl
  rw [addSlot, htarde, addManha]
  rw [hname]
  rw [if_pos (by rw [h]; rfl)]
  exact lookupS_setS_self _ _ _

/-- The fill-in loop installs the default record at a missing afternoon slot. -/
theorem addSlot_tarde_fill (st : AppState) (i : Nat)
    (h : lookupS st.periods.tarde.stations (stationIdForIndex i) = none) :
    lookupS (addSlot st i).periods.tarde.stations (stationIdForIndex i) =
      some emptyStation := by
  have hname : (addName st i).periods = st.periods := by
    rw [addName]; split <;> rfl
  have hmanha : ∀ s : AppState, (addManha s i).periods.tarde = s.periods.tarde := by
    intro s
    rw [addManha]; split <;> rfl
  rw [addSlot, addTarde, hmanha, hname]
  rw [if_pos (by rw [h]; rfl)]
  exact lookupS_setS_self _ _ _

/-- The fill-in loop keeps a non-falsy name at any key. -/
theorem addSlot_names_keep (st : AppState) (i : Nat) (k : String)
    (h : falsyS (lookupS st.meta.names k) = false) :
    lookupS (addSlot st i).meta.names k = lookupS st.meta.names k := by
  have hmanha : ∀ s : AppState, (addManha s i).meta = s.meta := by
    intro s
    rw [addManha]; split <;> rfl
  have htarde : ∀ s : AppState, (addTarde s i).meta = s.meta := by
    intro s
    rw [addTarde]; split <;> rfl
  rw [addSlot, htarde, hmanha, addName]
  split
  · by_cases he : stationIdForIndex i = k
    · rename_i hcond
      rw [he] at hcond
      rw [hcond] at h
      simp at h
    · show lookupS (setS st.meta.names (stationIdForIndex i) (defaultNameForIndex i)) k = _
      rw [lookupS_setS_ne _ _ _ _ (fun hk => he hk.symm)]
  · rfl

/-- The fill-in loop leaves names at other keys unchanged. -/
theorem addSlot_names_ne (st : AppState) (i : Nat) (k : String)
    (h : stationIdForIndex i ≠ k) :
    lookupS (addSlot st i).meta.names k = lookupS st.meta.names k := by
  have hmanha : ∀ s : AppState, (addManha s i).meta = s.meta := by
    intro s
    rw [addManha]; split <;> rfl
  have htarde : ∀ s : AppState, (addTarde s i).meta = s.meta := by
    intro s
    rw [addTarde]; split <;> rfl
  rw [addSlot, htarde, hmanha, addName]
  split
  · show lookupS (setS st.meta.names (stationIdForIndex i) (defaultNameForIndex i)) k = _
    rw [lookupS_setS_ne _ _ _ _ (fun hk => h hk.symm)]
  · rfl

/-- The fill-in loop installs the default name at a missing slot. -/
theorem addSlot_names_fill (st : AppState) (i : Nat)
    (h : lookupS st.meta.names (stationIdForIndex i) = none) :
    lookupS (addSlot st i).meta.names (stationIdForIndex i) =
      some (defaultNameForIndex i) := by
  have hmanha : ∀ s : AppState, (addManha s i).meta = s.meta := by
    intro s
    rw [addManha]; split <;> rfl
  have htarde : ∀ s : AppState, (addTarde s i).meta = s.meta := by
    intro s
    rw [addTarde]; split <;> rfl
  rw [addSlot, htarde, hmanha, addName]
  rw [if_pos (by rw [h]; rfl)]
  exact lookupS_setS_self _ _ _

/-- Default station names are never empty. -/
theorem defaultNameForIndex_ne_empty (i : Nat) : defaultNameForIndex i ≠ "" := by
  rw [defaultNameForIndex]
  split
  · decide
  · intro h
    have hlen := congrArg String.length h
    rw [String.length_append, String.length_append] at hlen
    have h1 : "Posto Concorrente ".length = 18 := rfl
    have h2 : ": ".length = 2 := rfl
    have h3 : "".length = 0 := rfl
    rw [h1, h2, h3] at hlen
    omega

/-- A present morning record survives the whole fill-in fold. -/
theorem addFold_manha_some (l : List Nat) (st : AppState) (k : String) (v : StationData)
    (h : lookupS st.periods.manha.stations k = some v) :
    lookupS ((l.foldl addSlot st)).periods.manha.stations k = some v := by
  induction l generalizing st with
  | nil => exact h
  | cons j l ih => exact ih _ (addSlot_manha_some _ _ _ _ h)

/-- A present afternoon record survives the whole fill-in fold. -/
theorem addFold_tarde_some (l : List Nat) (st : AppState) (k : String) (v : StationData)
    (h : lookupS st.periods.tarde.stations k = some v) :
    lookupS ((l.foldl addSlot st)).periods.tarde.stations k = some v := by
  induction l generalizing st with
  | nil => exact h
  | cons j l ih => exact ih _ (addSlot_tarde_some _ _ _ _ h)

/-- A missing morning slot visited by the fill-in fold receives the default
record. -/
theorem addFold_manha_fill (l : List Nat) (st : AppState) (k : String)
    (hnone : lookupS st.periods.manha.stations k = none)
    (hmem : ∃ i ∈ l, stationIdForIndex i = k) :
    lookupS ((l.foldl addSlot st)).periods.manha.stations k = some emptyStation := by
  induction l generalizing st with
  | nil =>
      obtain ⟨i, hi, _⟩ := hmem
      exact absurd hi (List.not_mem_nil i)
  | cons j l ih =>
      rw [List.foldl_cons]
      by_cases he : stationIdForIndex j = k
      · subst he
        exact addFold_manha_some _ _ _ _ (addSlot_manha_fill _ _ hnone)
      · have hnone' : lookupS (addSlot st j).periods.manha.stations k = none := by
          rw [addSlot_manha_ne _ _ _ he]; exact hnone
        obtain ⟨i, hi, hik⟩ := hmem
        rcases List.mem_cons.mp hi with h1 | h1
        · exact absurd (h1 ▸ hik) he
        · exact ih _ hnone' ⟨i, h1, hik⟩

/-- A missing afternoon slot visited by the fill-in fold receives the default
record. -/
theorem addFold_tarde_fill (l : List Nat) (st : AppState) (k : String)
    (hnone : lookupS st.periods.tarde.stations k = none)
    (hmem : ∃ i ∈ l, stationIdForIndex i = k) :
    lookupS ((l.foldl addSlot st)).periods.tarde.stations k = some emptyStation := by
  induction l generalizing st with
  | nil =>
      obtain ⟨i, hi, _⟩ := hmem
      exact absurd hi (List.not_mem_nil i)
  | cons j l ih =>
      rw [List.foldl_cons]
      by_cases he : stationIdForIndex j = k
      · subst he
        exact addFold_tarde_some _ _ _ _ (addSlot_tarde_fill _ _ hnone)
      · have hnone' : lookupS (addSlot st j).periods.tarde.stations k = none := by
          rw [addSlot_tarde_ne _ _ _ he]; exact hnone
        obtain ⟨i, hi, hik⟩ := hmem
        rcases List.mem_cons.mp hi with h1 | h1
        · exact absurd (h1 ▸ hik) he
        · exact ih _ hnone' ⟨i, h1, hik⟩

/-- A non-falsy name survives the whole fill-in fold unchanged. -/
theorem addFold_names_keep (l : List Nat) (st : AppState) (k : String)
    (h : falsyS (lookupS st.meta.names k) = false) :
    lookupS ((l.foldl addSlot st)).meta.names k = lookupS st.meta.names k := by
  induction l generalizing st with
  | nil => rfl
  | cons j l ih =>
      rw [List.foldl_cons, ih _ (by rw [addSlot_names_keep _ _ _ h]; exact h),
        addSlot_names_keep _ _ _ h]

/-- A missing name slot visited by the fill-in fold receives the default
name of the (unique) index mapping to it. -/
theorem addFold_names_fill (l : List Nat) (st : AppState) (i : Nat)
    (hnone : lookupS st.meta.names (stationIdForIndex i) = none)
    (hmem : i ∈ l)
    (huniq : ∀ j ∈ l, stationIdForIndex j = stationIdForIndex i → j = i) :
    lookupS ((l.foldl addSlot st)).meta.names (stationIdForIndex i) =
      some (defaultNameForIndex i) := by
  induction l generalizing st with
  | nil => exact absurd hmem (List.not_mem_nil i)
  | cons j l ih =>
      rw [List.foldl_cons]
      by_cases he : stationIdForIndex j = stationIdForIndex i
      · have hji : j = i := huniq j (List.mem_cons_self j l) he
        subst hji
        have hfilled := addSlot_names_fill st j hnone
        have hkeep : falsyS (lookupS (addSlot st j).meta.names (stationIdForIndex j)) = false := by
          rw [hfilled]
          have := defaultNameForIndex_ne_empty j
          simp [falsyS, this]
        rw [addFold_names_keep _ _ _ hkeep, hfilled]
      · have hmem' : i ∈ l := by
          rcases List.mem_cons.mp hmem with h1 | h1
          · exact absurd (h1 ▸ rfl) he
          · exact h1
        have hnone' : lookupS (addSlot st j).meta.names (stationIdForIndex i) = none := by
          rw [addSlot_names_ne _ _ _ he]; exact hnone
        exact ih _ hnone' hmem' (fun j' hj' => huniq j' (List.mem_cons_of_mem _ hj'))

/-- Removal-loop projections. -/
theorem delSlot_manha (st : AppState) (i : Nat) :
    (delSlot st i).periods.manha.stations =
      delS st.periods.manha.stations (stationIdForIndex i) := rfl

theorem delSlot_tarde (st : AppState) (i : Nat) :
    (delSlot st i).periods.tarde.stations =
      delS st.periods.tarde.stations (stationIdForIndex i) := rfl

theorem delSlot_names (st : AppState) (i : Nat) :
    (delSlot st i).meta.names = delS st.meta.names (stationIdForIndex i) := rfl

/-- An absent morning record stays absent through the removal fold. -/
theorem delFold_manha_none (l : List Nat) (st : AppState) (k : String)
    (h : lookupS st.periods.manha.stations k = none) :
    lookupS ((l.foldl delSlot st)).periods.manha.stations k = none := by
  induction l generalizing st with
  | nil => exact h
  | cons j l ih =>
      refine ih _ ?_
      rw [delSlot_manha]
      by_cases he : k = stationIdForIndex j
      · rw [he, lookupS_delS_self]
      · rw [lookupS_delS_ne _ _ _ he]; exact h

theorem delFold_tarde_none (l : List Nat) (st : AppState) (k : String)
    (h : lookupS st.periods.tarde.stations k = none) :
    lookupS ((l.foldl delSlot st)).periods.tarde.stations k = none := by
  induction l generalizing st with
  | nil => exact h
  | cons j l ih =>
      refine ih _ ?_
      rw [delSlot_tarde]
      by_cases he : k = stationIdForIndex j
      · rw [he, lookupS_delS_self]
      · rw [lookupS_delS_ne _ _ _ he]; exact h

theorem delFold_names_none (l : List Nat) (st : AppState) (k : String)
    (h : lookupS st.meta.names k = none) :
    lookupS ((l.foldl delSlot st)).meta.names k = none := by
  induction l generalizing st with
  | nil => exact h
  | cons j l ih =>
      refine ih _ ?_
      rw [delSlot_names]
      by_cases he : k = stationIdForIndex j
      · rw [he, lookupS_delS_self]
      · rw [lookupS_delS_ne _ _ _ he]; exact h

/-- The removal fold erases every slot it visits, in all three collections. -/
theorem delFold_hit (l : List Nat) (st : AppState) (k : String)
    (h : ∃ i ∈ l, stationIdForIndex i = k) :
    lookupS ((l.foldl delSlot st)).periods.manha.stations k = none ∧
    lookupS ((l.foldl delSlot st)).periods.tarde.stations k = none ∧
    lookupS ((l.foldl delSlot st)).meta.names k = none := by
  induction l generalizing st with
  | nil =>
      obtain ⟨i, hi, _⟩ := h
      exact absurd hi (List.not_mem_nil i)
  | cons j l ih =>
      rw [List.foldl_cons]
      by_cases he : stationIdForIndex j = k
      · refine ⟨delFold_manha_none _ _ _ ?_, delFold_tarde_none _ _ _ ?_,
          delFold_names_none _ _ _ ?_⟩
        · rw [delSlot_manha, ← he, lookupS_delS_self]
        · rw [delSlot_tarde, ← he, lookupS_delS_self]
        · rw [delSlot_names, ← he, lookupS_delS_self]
      · obtain ⟨i, hi, hik⟩ := h
        rcases List.mem_cons.mp hi with h1 | h1
        · exact absurd (h1 ▸ hik) he
        · exact ih _ ⟨i, h1, hik⟩

/-- The removal fold leaves unvisited slots unchanged, in all three
collections. -/
theorem delFold_frame (l : List Nat) (st : AppState) (k : String)
    (h : ∀ i ∈ l, stationIdForIndex i ≠ k) :
    lookupS ((l.foldl delSlot st)).periods.manha.stations k =
      lookupS st.periods.manha.stations k ∧
    lookupS ((l.foldl delSlot st)).periods.tarde.stations k =
      lookupS st.periods.tarde.stations k ∧
    lookupS ((l.foldl delSlot st)).meta.names k = lookupS st.meta.names k := by
  induction l generalizing st with
  | nil => exact ⟨rfl, rfl, rfl⟩
  | cons j l ih =>
      rw [List.foldl_cons]
      have hj : stationIdForIndex j ≠ k := h j (List.mem_cons_self j l)
      have hk : k ≠ stationIdForIndex j := fun he => hj he.symm
      obtain ⟨ihm, iht, ihn⟩ := ih (delSlot st j) (fun i hi => h i (List.mem_cons_of_mem _ hi))
      refine ⟨?_, ?_, ?_⟩
      · rw [ihm, delSlot_manha, lookupS_delS_ne _ _ _ hk]
      · rw [iht, delSlot_tarde, lookupS_delS_ne _ _ _ hk]
      · rw [ihn, delSlot_names, lookupS_delS_ne _ _ _ hk]

/-- The count recorded by the mutation. -/
theorem mutateCount_count (count : Nat) (st : AppState) :
    (mutateCount count st).config.concorrentesCount = count := rfl

/-- Slots visited by the removal loop are absent from the mutated state. -/
theorem mutateCount_removed (count : Nat) (st : AppState) (k : String)
    (h : ∃ i ∈ List.range' (count + 1) (20 - count), stationIdForIndex i = k) :
    lookupS (mutateCount count st).periods.manha.stations k = none ∧
    lookupS (mutateCount count st).periods.tarde.stations k = none ∧
    lookupS (mutateCount count st).meta.names k = none := by
  have hper : (mutateCount count st).periods =
      ((List.range' (count + 1) (20 - count)).foldl delSlot
        ((List.range (count + 1)).foldl addSlot st)).periods := rfl
  have hmet : (mutateCount count st).meta =
      ((List.range' (count + 1) (20 - count)).foldl delSlot
        ((List.range (count + 1)).foldl addSlot st)).meta := rfl
  rw [hper, hmet]
  exact delFold_hit _ _ _ h

/-- A slot whose record, name and both period entries are missing, whose
index is in the fill range and outside the removal range, ends as the
default empty record with the default name in the mutated state. -/
theorem mutateCount_filled (count : Nat) (st : AppState) (i : Nat)
    (hmem : i ∈ List.range (count + 1))
    (hm : lookupS st.periods.manha.stations (stationIdForIndex i) = none)
    (ht : lookupS st.periods.tarde.stations (stationIdForIndex i) = none)
    (hn : lookupS st.meta.names (stationIdForIndex i) = none)
    (huniq : ∀ j ∈ List.range (count + 1),
      stationIdForIndex j = stationIdForIndex i → j = i)
    (hframe : ∀ j ∈ List.range' (count + 1) (20 - count),
      stationIdForIndex j ≠ stationIdForIndex i) :
    lookupS (mutateCount count st).periods.manha.stations (stationIdForIndex i) =
      some emptyStation ∧
    lookupS (mutateCount count st).periods.tarde.stations (stationIdForIndex i) =
      some emptyStation ∧
    lookupS (mutateCount count st).meta.names (stationIdForIndex i) =
      some (defaultNameForIndex i) := by
  have hper : (mutateCount count st).periods =
      ((List.range' (count + 1) (20 - count)).foldl delSlot
        ((List.range (count + 1)).foldl addSlot st)).periods := rfl
  have hmet : (mutateCount count st).meta =
      ((List.range' (count + 1) (20 - count)).foldl delSlot
        ((List.range (count + 1)).foldl addSlot st)).meta := rfl
  rw [hper, hmet]
  obtain ⟨hfm, hft, hfn⟩ :=
    delFold_frame (List.range' (count + 1) (20 - count))
      ((List.range (count + 1)).foldl addSlot st) (stationIdForIndex i) hframe
  refine ⟨?_, ?_, ?_⟩
  · rw [hfm]
    exact addFold_manha_fill _ _ _ hm ⟨i, hmem, rfl⟩
  · rw [hft]
    exact addFold_tarde_fill _ _ _ ht ⟨i, hmem, rfl⟩
  · rw [hfn]
    exact addFold_names_fill _ _ _ hn hmem huniq

/-- The competitor count read back from storage does not depend on the clock
reading used while reading. -/
theorem readAppState_count_irrel (now now' : String) (st : RawStored) :
    (readAppState now st).config.concorrentesCount =
      (readAppState now' st).config.concorrentesCount := by
  cases st <;> rfl

/-- Reading back a saved aggregate recovers its competitor count. -/
theorem readAppState_toParsed_count (now : String) (s : AppState) :
    (readAppState now (.parsed (toParsed s))).config.concorrentesCount =
      s.config.concorrentesCount := rfl

/-- Reading back a saved aggregate merges its morning stations over the
default skeleton for its count. -/
theorem readAppState_toParsed_manha (now : String) (s : AppState) (k : String) :
    lookupS (readAppState now (.parsed (toParsed s))).periods.manha.stations k =
      orO (lookupS s.periods.manha.stations k)
        (lookupS (defaultStations s.config.concorrentesCount) k) := by
  show lookupS (spreadS (defaultStations s.config.concorrentesCount)
      s.periods.manha.stations) k = _
  rw [lookupS_spreadS]

/-- Reading back a saved aggregate merges its afternoon stations over the
default skeleton for its count. -/
theorem readAppState_toParsed_tarde (now : String) (s : AppState) (k : String) :
    lookupS (readAppState now (.parsed (toParsed s))).periods.tarde.stations k =
      orO (lookupS s.periods.tarde.stations k)
        (lookupS (defaultStations s.config.concorrentesCount) k) := by
  show lookupS (spreadS (defaultStations s.config.concorrentesCount)
      s.periods.tarde.stations) k = _
  rw [lookupS_spreadS]

/-- Reading back a saved aggregate merges its names over the default skeleton
for its count. -/
theorem readAppState_toParsed_names (now : String) (s : AppState) (k : String) :
    lookupS (readAppState now (.parsed (toParsed s))).meta.names k =
      orO (lookupS s.meta.names k)
        (lookupS (defaultNames s.config.concorrentesCount) k) := by
  show lookupS (spreadS (defaultNames s.config.concorrentesCount) s.meta.names) k = _
  rw [lookupS_spreadS]

/-- Reduction of `setConcorrentesCount` on the no-op branch. -/
theorem setCC_eq_pos (count : Nat) (now : String) (w : AppWorld)
    (h : count = (readAppState now w.stored).config.concorrentesCount) :
    setConcorrentesCount count now w = (readAppState now w.stored, w) := by
  simp only [setConcorrentesCount]
  rw [if_pos h]

/-- Reduction of `setConcorrentesCount` on the mutating branch. -/
theorem setCC_eq_neg (count : Nat) (now : String) (w : AppWorld)
    (h : ¬ count = (readAppState now w.stored).config.concorrentesCount) :
    setConcorrentesCount count now w =
      (mutateCount count (readAppState now w.stored),
       saveAppState now (mutateCount count (readAppState now w.stored)) w) := by
  simp only [setConcorrentesCount]
  rw [if_neg h]

/-- The value persisted by a save. -/
theorem saveAppState_stored (now : String) (s : AppState) (w : AppWorld) :
    (saveAppState now s w).stored =
      .parsed (toParsed { s with meta := { s.meta with lastEdited := some now } }) := rfl

/-- Core of C9, for a slot index whose concrete membership facts are
supplied: after `setConcorrentesCount 5; 2; 5`, the slot carries the default
empty records and default name. -/
theorem setCC_cycle_core (w : AppWorld) (n1 n2 n3 : String) (i : Nat)
    (hdel2 : ∃ j ∈ List.range' 3 18, stationIdForIndex j = stationIdForIndex i)
    (hdef2m : lookupS (defaultStations 2) (stationIdForIndex i) = none)
    (hdef2n : lookupS (defaultNames 2) (stationIdForIndex i) = none)
    (hmem6 : i ∈ List.range 6)
    (huniq : ∀ j ∈ List.range 6, stationIdForIndex j = stationIdForIndex i → j = i)
    (hframe : ∀ j ∈ List.range' 6 15, stationIdForIndex j ≠ stationIdForIndex i) :
    lookupS (setConcorrentesCount 5 n3
        (setConcorrentesCount 2 n2
          (setConcorrentesCount 5 n1 w).2).2).1.periods.manha.stations
      (stationIdForIndex i) = some emptyStation ∧
    lookupS (setConcorrentesCount 5 n3
        (setConcorrentesCount 2 n2
          (setConcorrentesCount 5 n1 w).2).2).1.periods.tarde.stations
      (stationIdForIndex i) = some emptyStation ∧
    lookupS (setConcorrentesCount 5 n3
        (setConcorrentesCount 2 n2
          (setConcorrentesCount 5 n1 w).2).2).1.meta.names
      (stationIdForIndex i) = some (defaultNameForIndex i) := by
  have hcount1 : (readAppState n2
      ((setConcorrentesCount 5 n1 w).2).stored).config.concorrentesCount = 5 := by
    by_cases h1 : (5 : Nat) = (readAppState n1 w.stored).config.concorrentesCount
    · rw [setCC_eq_pos _ _ _ h1]
      rw [readAppState_count_irrel n2 n1]
      exact h1.symm
    · rw [setCC_eq_neg _ _ _ h1, saveAppState_stored, readAppState_toParsed_count]
      rfl
  have h2 : ¬ ((2 : Nat) = (readAppState n2
      ((setConcorrentesCount 5 n1 w).2).stored).config.concorrentesCount) := by
    rw [hcount1]
    decide
  obtain ⟨s2, hs2⟩ : ∃ s2 : AppState,
      mutateCount 2 (readAppState n2 ((setConcorrentesCount 5 n1 w).2).stored) = s2 :=
    ⟨_, rfl⟩
  rw [setCC_eq_neg _ _ _ h2, hs2]
  have hs2m : lookupS s2.periods.manha.stations (stationIdForIndex i) = none := by
    rw [← hs2]
    exact (mutateCount_removed 2 _ _ hdel2).1
  have hs2t : lookupS s2.periods.tarde.stations (stationIdForIndex i) = none := by
    rw [← hs2]
    exact (mutateCount_removed 2 _ _ hdel2).2.1
  have hs2n : lookupS s2.meta.names (stationIdForIndex i) = none := by
    rw [← hs2]
    exact (mutateCount_removed 2 _ _ hdel2).2.2
  have hs2c : s2.config.concorrentesCount = 2 := by
    rw [← hs2]
    rfl
  have hc3 : (readAppState n3 (saveAppState n2 s2
      ((setConcorrentesCount 5 n1 w).2)).stored).config.concorrentesCount = 2 := by
    rw [saveAppState_stored, readAppState_toParsed_count]
    exact hs2c
  have h3 : ¬ ((5 : Nat) = (readAppState n3 (saveAppState n2 s2
      ((setConcorrentesCount 5 n1 w).2)).stored).config.concorrentesCount) := by
    rw [hc3]
    decide
  obtain ⟨st3, hst3⟩ : ∃ st3 : AppState,
      readAppState n3 (saveAppState n2 s2 ((setConcorrentesCount 5 n1 w).2)).stored = st3 :=
    ⟨_, rfl⟩
  rw [setCC_eq_neg _ _ _ h3, hst3]
  have hst3m : lookupS st3.periods.manha.stations (stationIdForIndex i) = none := by
    rw [← hst3, saveAppState_stored, readAppState_toParsed_manha]
    show orO (lookupS s2.periods.manha.stations (stationIdForIndex i))
      (lookupS (defaultStations s2.config.concorrentesCount) (stationIdForIndex i)) = none
    rw [hs2m, hs2c, hdef2m]
    rfl
  have hst3t : lookupS st3.periods.tarde.stations (stationIdForIndex i) = none := by
    rw [← hst3, saveAppState_stored, readAppState_toParsed_tarde]
    show orO (lookupS s2.periods.tarde.stations (stationIdForIndex i))
      (lookupS (defaultStations s2.config.concorrentesCount) (stationIdForIndex i)) = none
    rw [hs2t, hs2c, hdef2m]
    rfl
  have hst3n : lookupS st3.meta.names (stationIdForIndex i) = none := by
    rw [← hst3, saveAppState_stored, readAppState_toParsed_names]
    show orO (lookupS s2.meta.names (stationIdForIndex i))
      (lookupS (defaultNames s2.config.concorrentesCount) (stationIdForIndex i)) = none
    rw [hs2n, hs2c, hdef2n]
    rfl
  exact mutateCount_filled 5 st3 i hmem6 hst3m hst3t hst3n huniq hframe

/-- C9: starting from any state, `setConcorrentesCount(5)` then
`setConcorrentesCount(2)` then `setConcorrentesCount(5)` leaves competitor
slots 3, 4 and 5 as default empty station records (blank prices, empty
photo, `noChange` false) in both periods, under their default names — no
data those slots held before the intermediate deletion resurfaces. -/
theorem setConcorrentesCount_cycle_restores_defaults (w : AppWorld)
    (n1 n2 n3 : String) (i : Nat) (hlo : 3 ≤ i) (hhi : i ≤ 5) :
    lookupS (setConcorrentesCount 5 n3
        (setConcorrentesCount 2 n2
          (setConcorrentesCount 5 n1 w).2).2).1.periods.manha.stations
      (stationIdForIndex i) = some emptyStation ∧
    lookupS (setConcorrentesCount 5 n3
        (setConcorrentesCount 2 n2
          (setConcorrentesCount 5 n1 w).2).2).1.periods.tarde.stations
      (stationIdForIndex i) = some emptyStation ∧
    lookupS (setConcorrentesCount 5 n3
        (setConcorrentesCount 2 n2
          (setConcorrentesCount 5 n1 w).2).2).1.meta.names
      (stationIdForIndex i) = some (defaultNameForIndex i) := by
  interval_cases i
  · exact setCC_cycle_core w n1 n2 n3 3 (by decide) (by decide) (by decide)
      (by decide) (by decide) (by decide)
  · exact setCC_cycle_core w n1 n2 n3 4 (by decide) (by decide) (by decide)
      (by decide) (by decide) (by decide)
  · exact setCC_cycle_core w n1 n2 n3 5 (by decide) (by decide) (by decide)
      (by decide) (by decide) (by decide)

/-- Witness for C9 at a concrete world (empty storage) and slot 4. -/
theorem setConcorrentesCount_cycle_restores_defaults_witness :
    lookupS (setConcorrentesCount 5 "t3"
        (setConcorrentesCount 2 "t2"
          (setConcorrentesCount 5 "t1" ⟨.missing, 0⟩).2).2).1.periods.manha.stations
      (stationIdForIndex 4) = some emptyStation ∧
    lookupS (setConcorrentesCount 5 "t3"
        (setConcorrentesCount 2 "t2"
          (setConcorrentesCount 5 "t1" ⟨.missing, 0⟩).2).2).1.periods.tarde.stations
      (stationIdForIndex 4) = some emptyStation ∧
    lookupS (setConcorrentesCount 5 "t3"
        (setConcorrentesCount 2 "t2"
          (setConcorrentesCount 5 "t1" ⟨.missing, 0⟩).2).2).1.meta.names
      (stationIdForIndex 4) = some (defaultNameForIndex 4) :=
  setConcorrentesCount_cycle_restores_defaults ⟨.missing, 0⟩ "t1" "t2" "t3" 4
    (by decide) (by decide)

end PostoNatureza
